import Mathlib

/-!
# URL shortener: shortening service and stores

A shallow embedding of the shortening service
(`internal/shortener/services/shorturl`), of the in-memory backend
(`internal/shortener/storage/shortenedurl/memstorage`), of the file backend
(`.../filestorage`) and of `CollectByUser` of the relational backend
(`.../postgres`).

Conventions of the embedding.

* A Go `string` is a Lean `String`; the standard-library parsers work on its
  character list, one `Char` per byte.  Every test those parsers apply treats
  all bytes above `0x7f` alike, so a non-ASCII character stands for its bytes.
* A Go `error` is `Option GoError`, `none` being `nil`.
* A Go multiple return `(T, error)` is a pair.
* Code that may panic returns `Option`, `none` being the panic.
* `crypto/rand.Read` followed by `binary.LittleEndian.Uint64` is a draw
  `Option Nat`: `none` when the read fails, `some v` for the decoded value,
  which is reduced modulo `2 ^ 64`.
* A method with a receiver whose state changes takes the state and returns the
  new one.
* A call that may wait forever returns `Run`, `stuck` being the call that does
  not return.
* What the operating system or the database answers to a call (the error of a
  file write or seek, the rows of a query) is an argument of the method that
  makes the call.
-/

namespace Shortener

/-! ## Errors -/

/-- Go error values met in the service and in the storage packages. -/
inductive GoError where
  /-- The sentinel `shortenedurl.ErrUniqueViolation` of the storage package. -/
  | storageUniqueViolation
  /-- The sentinel `shorturl.ErrInternal`. -/
  | ErrInternal
  /-- The sentinel `shorturl.ErrInvalidCreation`. -/
  | ErrInvalidCreation
  /-- The sentinel `shorturl.ErrUniqueViolation` of the service. -/
  | ErrUniqueViolation
  /-- The sentinel `shorturl.ErrEmptyBatch`. -/
  | ErrEmptyBatch
  /-- An error made on the spot by `errors.New` or `fmt.Errorf` without `%w`. -/
  | adhoc (msg : String)
  /-- An error that wraps another one (`fmt.Errorf` with `%w`). -/
  | wrap (msg : String) (inner : GoError)
  /-- The sentinel `io.EOF`. -/
  | EOF
  deriving DecidableEq, Repr

/-- Go `errors.Is`: the error or one of the errors it wraps is the target. -/
def errorsIs (err target : GoError) : Bool :=
  if err = target then true
  else
    match err with
    | GoError.wrap _ inner => errorsIs inner target
    | _ => false

/-- Go `errors.Unwrap`: the wrapped error, nil when there is none. -/
def errorsUnwrap : GoError → Option GoError
  | GoError.wrap _ inner => some inner
  | _ => none

/-- The outcome of a call that may wait forever (on a mutex that stays held, on
a channel nobody sends to, in a loop that does not end). -/
inductive Run (α : Type) where
  | done (a : α)
  | stuck
  deriving DecidableEq, Repr

/-- A Go slice value; `none` is the nil slice. -/
abbrev Slice (α : Type) := Option (List α)

/-- The elements a `range` loop over the slice visits, in order. -/
def Slice.elems {α : Type} : Slice α → List α
  | none => []
  | some l => l

/-- Go `len` of a slice. -/
def Slice.len {α : Type} (s : Slice α) : Nat := s.elems.length

/-- Go `append(s, x)`. -/
def Slice.append {α : Type} (s : Slice α) (x : α) : Slice α := some (s.elems ++ [x])

/-! ## models -/

/-- The `models.URL` request. -/
structure URL where
  UserID : String
  CorrID : String
  Raw : String
  deriving DecidableEq, Repr

/-- The `models.ShortenedURL` entity. -/
structure ShortenedURL where
  UserID : String
  CorrID : String
  Raw : String
  Slug : String
  Value : String
  IsDeleted : Bool
  deriving DecidableEq, Repr

/-- The zero value `models.ShortenedURL{}`. -/
def ShortenedURL.zero : ShortenedURL :=
  { UserID := "", CorrID := "", Raw := "", Slug := "", Value := "", IsDeleted := false }

/-- The method `ShortenedURL.Empty` of package `models`. -/
def ShortenedURL.Empty (s : ShortenedURL) : Bool :=
  s.UserID.length == 0 && s.CorrID.length == 0 && s.Raw.length == 0 &&
    s.Value.length == 0 && s.Slug.length == 0 && !s.IsDeleted

/-- Modelled from the spec: the declaration of `models.Stat` is not among the
sources; the spec gives `Stat = {URLs int, Users int}`.  Both fields are set
from `len`, so they are naturals here. -/
structure Stat where
  URLs : Nat
  Users : Nat
  deriving DecidableEq, Repr

/-- The service's own `shortenedURL` record (package `shorturl`). -/
structure shortenedURL where
  UserID : String
  CorrID : String
  Raw : String
  Slug : String
  Value : String
  IsDeleted : Bool
  deriving DecidableEq, Repr

/-- The zero value `shortenedURL{}`. -/
def shortenedURL.zero : shortenedURL :=
  { UserID := "", CorrID := "", Raw := "", Slug := "", Value := "", IsDeleted := false }

/-- The method `shortenedURL.Empty`. -/
def shortenedURL.Empty (s : shortenedURL) : Bool :=
  s.UserID.length == 0 && s.CorrID.length == 0 && s.Raw.length == 0 &&
    s.Value.length == 0 && s.Slug.length == 0 && !s.IsDeleted

/-- The method `shortenedURL.ToModel` of the service package. -/
def shortenedURL.ToModel (s : shortenedURL) : ShortenedURL :=
  { UserID := s.UserID, CorrID := s.CorrID, Raw := s.Raw, Slug := s.Slug,
    Value := s.Value, IsDeleted := s.IsDeleted }

/-- The method `shortenedURLs.ToModel`: a fresh non-nil slice, element by element. -/
def shortenedURLs.ToModel (s : List shortenedURL) : List ShortenedURL :=
  s.map shortenedURL.ToModel

/-! ## Go standard library: `strings`, `net/url`, `net`

The service calls `url.ParseRequestURI`, `net.ParseIP` and `strings.Contains`.
They are transcribed here from the Go standard library (they are not code of
the repository), keeping what decides success and the `Scheme`, `Opaque` and
`Host` fields. -/

/-- Go `strings.HasPrefix`. -/
def HasPrefix (s pre : List Char) : Bool := pre.isPrefixOf s

/-- Go `strings.Contains`. -/
def Contains : List Char → List Char → Bool
  | [], sub => sub.isEmpty
  | c :: s, sub => HasPrefix (c :: s) sub || Contains s sub

/-- The part of the string before the first occurrence of `sep` and the part
after it; `none` when `sep` does not occur (Go `strings.Cut` on one byte). -/
def cutByte (sep : Char) : List Char → Option (List Char × List Char)
  | [] => none
  | c :: s =>
    if c = sep then some ([], s)
    else
      match cutByte sep s with
      | none => none
      | some (a, b) => some (c :: a, b)

/-- The part before the last occurrence of `sep` and the part after it; `none`
when `sep` does not occur (Go `strings.LastIndex` on one byte, then slicing). -/
def cutLastByte (sep : Char) : List Char → Option (List Char × List Char)
  | [] => none
  | c :: s =>
    match cutLastByte sep s with
    | some (a, b) => some (c :: a, b)
    | none => if c = sep then some ([], s) else none

/-- Go `url.stringContainsCTLByte`. -/
def stringContainsCTLByte (s : List Char) : Bool :=
  s.any fun b => decide (b.toNat < 0x20) || decide (b.toNat = 0x7f)

/-- ASCII letter test used by `getScheme` and `shouldEscape`. -/
def isAlpha (c : Char) : Bool :=
  (decide ('a' ≤ c) && decide (c ≤ 'z')) || (decide ('A' ≤ c) && decide (c ≤ 'Z'))

/-- ASCII digit test. -/
def isDigit (c : Char) : Bool := decide ('0' ≤ c) && decide (c ≤ '9')

/-- Go `url.ishex`. -/
def ishex (c : Char) : Bool :=
  isDigit c || (decide ('a' ≤ c) && decide (c ≤ 'f')) || (decide ('A' ≤ c) && decide (c ≤ 'F'))

/-- Go `url.unhex`. -/
def unhex (c : Char) : Nat :=
  if isDigit c then c.toNat - '0'.toNat
  else if decide ('a' ≤ c) && decide (c ≤ 'f') then c.toNat - 'a'.toNat + 10
  else if decide ('A' ≤ c) && decide (c ≤ 'F') then c.toNat - 'A'.toNat + 10
  else 0

/-- The loop of Go `url.getScheme`; `seen` holds the bytes already scanned, in
reverse.  The result is `(scheme, rest)`, or `none` for the error
`missing protocol scheme`. -/
def getSchemeLoop (rawURL : List Char) : List Char → List Char → Option (List Char × List Char)
  | _, [] => some ([], rawURL)
  | seen, c :: s =>
    if isAlpha c then getSchemeLoop rawURL (c :: seen) s
    else if isDigit c || c = '+' || c = '-' || c = '.' then
      if seen.isEmpty then some ([], rawURL) else getSchemeLoop rawURL (c :: seen) s
    else if c = ':' then
      if seen.isEmpty then none else some (seen.reverse, s)
    else some ([], rawURL)

/-- Go `url.getScheme`. -/
def getScheme (rawURL : List Char) : Option (List Char × List Char) :=
  getSchemeLoop rawURL [] rawURL

/-- The escaping modes of `net/url` that parsing a request URI uses. -/
inductive encoding where
  | encodePath
  | encodeHost
  | encodeZone
  | encodeUserPassword
  deriving DecidableEq, Repr

/-- Go `url.shouldEscape` at mode `encodeHost`, for bytes below `0x80`. -/
def shouldEscapeHost (c : Char) : Bool :=
  if isAlpha c || isDigit c then false
  else if c ∈ ['!', '$', '&', Char.ofNat 39, '(', ')', '*', '+', ',', ';', '=', ':', '[', ']', '<', '>', Char.ofNat 34]
  then false
  else if c ∈ ['-', '_', '.', '~'] then false
  else true

/-- The checking pass of Go `url.unescape`: `true` when every `%` starts a
well-formed escape that the mode allows and, in the host modes, no byte needs
escaping. -/
def unescapeOk (mode : encoding) : List Char → Bool
  | [] => true
  | '%' :: a :: b :: s =>
    if !(ishex a && ishex b) then false
    else if mode = encoding.encodeHost && decide (unhex a < 8) && !(a = '2' && b = '5') then false
    else if mode = encoding.encodeZone && !(a = '2' && b = '5') &&
        !(unhex a * 16 + unhex b = 0x20) &&
        shouldEscapeHost (Char.ofNat (unhex a * 16 + unhex b)) then false
    else unescapeOk mode s
  | '%' :: _ => false
  | c :: s =>
    if (mode = encoding.encodeHost || mode = encoding.encodeZone) &&
        decide (c.toNat < 0x80) && shouldEscapeHost c then false
    else unescapeOk mode s

/-- The decoding pass of Go `url.unescape` (no mode met here turns `+` into a
space). -/
def unescapeBytes : List Char → List Char
  | [] => []
  | '%' :: a :: b :: s => Char.ofNat (unhex a * 16 + unhex b) :: unescapeBytes s
  | c :: s => c :: unescapeBytes s

/-- Go `url.unescape`; `none` is an error. -/
def unescape (s : List Char) (mode : encoding) : Option (List Char) :=
  if unescapeOk mode s then some (unescapeBytes s) else none

/-- Go `url.validOptionalPort`. -/
def validOptionalPort : List Char → Bool
  | [] => true
  | c :: port => c = ':' && port.all isDigit

/-- Go `url.validUserinfo`. -/
def validUserinfo (s : List Char) : Bool :=
  s.all fun r => isAlpha r || isDigit r ||
    decide (r ∈ ['-', '.', '_', ':', '~', '!', '$', '&', Char.ofNat 39, '(', ')', '*', '+', ',', ';', '=', '%', '@'])

/-- Index of the first occurrence of `%25` (Go `strings.Index`): the part
before it and the part from it on. -/
def splitZone : List Char → Option (List Char × List Char)
  | [] => none
  | c :: s =>
    if HasPrefix (c :: s) ['%', '2', '5'] then some ([], c :: s)
    else
      match splitZone s with
      | none => none
      | some (a, b) => some (c :: a, b)

/-- Go `url.parseHost`; `none` is an error. -/
def parseHost (host : List Char) : Option (List Char) :=
  if HasPrefix host ['['] then
    match cutLastByte ']' host with
    | none => none
    | some (inner, colonPort) =>
      if !validOptionalPort colonPort then none
      else
        match splitZone inner with
        | some (h1, z) =>
          match unescape h1 encoding.encodeHost, unescape z encoding.encodeZone,
              unescape (']' :: colonPort) encoding.encodeHost with
          | some host1, some host2, some host3 => some (host1 ++ host2 ++ host3)
          | _, _, _ => none
        | none => unescape host encoding.encodeHost
  else
    match cutLastByte ':' host with
    | some (_, port) =>
      if !validOptionalPort (':' :: port) then none else unescape host encoding.encodeHost
    | none => unescape host encoding.encodeHost

/-- Go `url.parseAuthority`, its host result; `none` is an error. -/
def parseAuthority (authority : List Char) : Option (List Char) :=
  match cutLastByte '@' authority with
  | none => parseHost authority
  | some (userinfo, hostpart) =>
    match parseHost hostpart with
    | none => none
    | some host =>
      if !validUserinfo userinfo then none
      else
        match cutByte ':' userinfo with
        | none =>
          if unescapeOk encoding.encodeUserPassword userinfo then some host else none
        | some (username, password) =>
          if unescapeOk encoding.encodeUserPassword username &&
              unescapeOk encoding.encodeUserPassword password then some host else none

/-- The fields of Go `url.URL` that the service can observe. -/
structure ParsedURL where
  Scheme : String
  Opaque : String
  Host : String
  deriving DecidableEq, Repr

/-- Go `strings.ToLower` on ASCII letters. -/
def ToLower (s : List Char) : List Char :=
  s.map fun c => if decide ('A' ≤ c) && decide (c ≤ 'Z') then Char.ofNat (c.toNat + 32) else c

/-- The query split of Go `url.parse`: both of its branches leave in `rest` the
part before the first `?`. -/
def splitQuery (rest : List Char) : List Char :=
  match cutByte '?' rest with
  | none => rest
  | some (before, _) => before

/-- The authority split of Go `url.parse`: the bytes after `//` up to the next
`/`, and the path from that `/` on. -/
def splitAuthority (afterSlashes : List Char) : List Char × List Char :=
  match cutByte '/' afterSlashes with
  | none => (afterSlashes, [])
  | some (authority, path) => (authority, '/' :: path)

/-- Go `url.parse` with `viaRequest = true`, after the scheme and the query
have been split off; `none` is an error. -/
def parseAfterScheme (scheme rest : List Char) : Option ParsedURL :=
  if !HasPrefix rest ['/'] then
    if !scheme.isEmpty then
      some { Scheme := String.mk scheme, Opaque := String.mk rest, Host := "" }
    else none
  else if !scheme.isEmpty && HasPrefix rest ['/', '/'] then
    match parseAuthority (splitAuthority (rest.drop 2)).1 with
    | none => none
    | some host =>
      if unescapeOk encoding.encodePath (splitAuthority (rest.drop 2)).2 then
        some { Scheme := String.mk scheme, Opaque := "", Host := String.mk host }
      else none
  else if unescapeOk encoding.encodePath rest then
    some { Scheme := String.mk scheme, Opaque := "", Host := "" }
  else none

/-- Go `url.parse` with `viaRequest = true`; `none` is an error. -/
def parse (rawURL : List Char) : Option ParsedURL :=
  if stringContainsCTLByte rawURL then none
  else if rawURL.isEmpty then none
  else if rawURL = ['*'] then some { Scheme := "", Opaque := "", Host := "" }
  else
    match getScheme rawURL with
    | none => none
    | some (scheme, rest) => parseAfterScheme (ToLower scheme) (splitQuery rest)

/-- Go `url.ParseRequestURI`: the parsed URL and the error. -/
def ParseRequestURI (rawURL : String) : Option ParsedURL × Option GoError :=
  match parse rawURL.data with
  | none => (none, some (GoError.adhoc "parse error"))
  | some u => (some u, none)

/-- The loop of Go `netip.parseIPv4Fields`, as a validity test.  `prev` is the
byte before the current one (`none` at index 0). -/
def parseIPv4FieldsLoop : Nat → Nat → Nat → Option Char → List Char → Bool
  | _, pos, _, _, [] => decide (3 ≤ pos)
  | val, pos, digLen, prev, c :: s =>
    if isDigit c then
      if digLen = 1 ∧ val = 0 then false
      else
        let val := val * 10 + (c.toNat - '0'.toNat)
        if val > 255 then false else parseIPv4FieldsLoop val pos (digLen + 1) (some c) s
    else if c = '.' then
      if prev = none ∨ s = [] ∨ prev = some '.' then false
      else if pos = 3 then false
      else parseIPv4FieldsLoop 0 (pos + 1) 0 (some c) s
    else false

/-- Go `netip.parseIPv4Fields` on a whole field string: `true` when it returns
no error. -/
def parseIPv4Fields (s : List Char) : Bool := parseIPv4FieldsLoop 0 0 0 none s

/-- The hex-number scan inside Go `netip.parseIPv6`: the number of digits read,
the accumulated value and the unread rest; `none` is an error. -/
def hexGroup : Nat → Nat → List Char → Option (Nat × Nat × List Char)
  | off, acc, [] => some (off, acc, [])
  | off, acc, c :: s =>
    if ishex c then
      let acc := (acc * 16 + unhex c) % 2 ^ 32
      if off > 3 then none
      else if acc > 0xFFFF then none
      else hexGroup (off + 1) acc s
    else some (off, acc, c :: s)

/-- The main loop of Go `netip.parseIPv6` (`for i < 16`).  Every round that
goes on adds 2 to `i`, so 8 rounds of fuel cover it.  The result is the final
`i`, the ellipsis position and the unread rest; `none` is an error. -/
def parseIPv6Loop : Nat → Nat → Option Nat → List Char → Option (Nat × Option Nat × List Char)
  | 0, i, ellipsis, s => some (i, ellipsis, s)
  | fuel + 1, i, ellipsis, s =>
    if 16 ≤ i then some (i, ellipsis, s)
    else
      match hexGroup 0 0 s with
      | none => none
      | some (off, _, rest) =>
        if off = 0 then none
        else if rest.head? = some '.' then
          if ellipsis = none ∧ i ≠ 12 then none
          else if i + 4 > 16 then none
          else if parseIPv4Fields s then some (i + 4, ellipsis, []) else none
        else
          match rest with
          | [] => some (i + 2, ellipsis, [])
          | c :: t =>
            if c ≠ ':' then none
            else
              match t with
              | [] => none
              | ':' :: t2 =>
                if ellipsis.isSome then none
                else if t2.isEmpty then some (i + 2, some (i + 2), [])
                else parseIPv6Loop fuel (i + 2) (some (i + 2)) t2
              | _ :: _ => parseIPv6Loop fuel (i + 2) ellipsis t

/-- Go `netip.parseIPv6`: the zone of the parsed address; `none` is an error. -/
def parseIPv6 (inp : List Char) : Option (List Char) :=
  let split : Option (List Char × List Char) :=
    match cutByte '%' inp with
    | none => some (inp, [])
    | some (a, zone) => if zone.isEmpty then none else some (a, zone)
  match split with
  | none => none
  | some (s, zone) =>
    let lead : Option Nat × List Char :=
      match s with
      | ':' :: ':' :: t => (some 0, t)
      | _ => (none, s)
    if lead.1.isSome && lead.2.isEmpty then some zone
    else
      match parseIPv6Loop 8 0 lead.1 lead.2 with
      | none => none
      | some (i, ellipsis, rest) =>
        if !rest.isEmpty then none
        else if i < 16 then (if ellipsis.isSome then some zone else none)
        else if ellipsis.isSome then none
        else some zone

/-- Go `netip.ParseAddr`: the zone of the parsed address (empty for IPv4);
`none` is an error.  The first `.`, `:` or `%` met picks the parser. -/
def ParseAddr (s : List Char) : Option (List Char) :=
  match s.find? fun c => c = '.' || c = ':' || c = '%' with
  | some '.' => if parseIPv4Fields s then some [] else none
  | some ':' => parseIPv6 s
  | _ => none

/-- Go `net.ParseIP`, as the test `net.ParseIP(s) != nil`: the address parses
and has no zone. -/
def ParseIP (s : String) : Bool :=
  match ParseAddr s.data with
  | some zone => zone.isEmpty
  | none => false

/-! ## Slug generator -/

/-- The constant `base62Alphabet`. -/
def base62Alphabet : List Char :=
  "abcdefghijklmnopqrstuvwxyzABCDEFGHIJKLMNOPQRSTUVWXYZ0123456789".data

/-- The constant `base62Len`. -/
def base62Len : Nat := base62Alphabet.length

/-- The loop of `base62`: `n` rounds, each dividing `base` by `base62Len` and
then writing the symbol at `base % base62Len`. -/
def base62Loop : Nat → Nat → List Char
  | 0, _ => []
  | n + 1, base =>
    let base := base / base62Len
    base62Alphabet.get ⟨base % base62Len, Nat.mod_lt _ (by decide)⟩ :: base62Loop n base

/-- The function `base62`.  `strings.Builder.Grow` panics on a negative size;
the draw stands for `rand.Read` and the little-endian decoding. -/
def base62 (size : Int) (draw : Option Nat) : Option (String × Option GoError) :=
  if size = 0 then some ("", some (GoError.adhoc "zero size"))
  else if size < 0 then none
  else
    match draw with
    | none => some ("", some (GoError.adhoc "failed to generate random uint64"))
    | some v => some (String.mk (base62Loop size.toNat (v % 2 ^ 64)), none)

/-- The method `Error` of a Go error: its message. -/
def GoError.Error : GoError → String
  | GoError.storageUniqueViolation => "find shortened URL with the same raw URL"
  | GoError.ErrInternal => "internal error"
  | GoError.ErrInvalidCreation => "invalid creation"
  | GoError.ErrUniqueViolation => "unique violation"
  | GoError.ErrEmptyBatch => "empty batch"
  | GoError.adhoc msg => msg
  | GoError.wrap msg _ => msg
  | GoError.EOF => "EOF"

/-! ## Shortening service -/

/-- The function `shortenURL`.  The draw is used only when every check has
passed, as `base62` is called last. -/
def shortenURL (userID corrID rawURI baseURL : String) (draw : Option Nat) :
    Option (shortenedURL × Option GoError) :=
  if userID.length = 0 then
    some (shortenedURL.zero, some (GoError.adhoc "empty userID"))
  else if rawURI.length = 0 then
    some (shortenedURL.zero, some (GoError.adhoc "empty URI"))
  else
    match ParseRequestURI rawURI with
    | (_, some _) => some (shortenedURL.zero, some (GoError.adhoc "failed to parse URI"))
    | (none, none) => none
    | (some uri, none) =>
      if !ParseIP uri.Host && !Contains uri.Host.data ['.'] then
        some (shortenedURL.zero, some (GoError.adhoc "failed to parse URI"))
      else if baseURL.length = 0 then
        some (shortenedURL.zero, some (GoError.adhoc "empty baseURL"))
      else
        match base62 7 draw with
        | none => none
        | some (_, some err) =>
          some (shortenedURL.zero,
            some (GoError.adhoc ("failed to create the slug: " ++ err.Error)))
        | some (slug, none) =>
          some ({ UserID := userID, CorrID := corrID, Raw := rawURI, Slug := slug,
                  Value := baseURL ++ "/" ++ slug, IsDeleted := false }, none)

/-- The checks `shortenURL` makes before it draws the slug, in its order:
non-empty `userID`, non-empty `rawURI`, `url.ParseRequestURI` succeeds, the
`Host` is accepted by `net.ParseIP` or contains a `.`, non-empty `baseURL`. -/
def validCreation (userID rawURI baseURL : String) : Bool :=
  userID.length != 0 && rawURI.length != 0 &&
    (match ParseRequestURI rawURI with
      | (some uri, none) => ParseIP uri.Host || Contains uri.Host.data ['.']
      | _ => false) &&
    baseURL.length != 0

/-- The words "valid IP literal" of the validity rule, set beside the test
`net.ParseIP(uri.Host)` of the code: the host is an address `net.ParseIP`
accepts, written as it is or, as a URI writes an IPv6 address, between
brackets. -/
def isIPLiteral (host : String) : Bool :=
  ParseIP host ||
    match host.data with
    | '[' :: t => decide (t.getLast? = some ']') && ParseIP (String.mk t.dropLast)
    | _ => false

/-- The interface `urlSaver`, over a backend with states `σ`: each method
returns its error and the backend's next state.  The context argument carries
nothing the service reads and is left out. -/
structure urlSaver (σ : Type) where
  Save : σ → ShortenedURL → Option GoError × σ
  Batch : σ → Slice ShortenedURL → Option GoError × σ

/-- The struct `shortener`. -/
structure shortener (σ : Type) where
  saver : urlSaver σ
  baseURL : String

/-- The method `shortener.Short`, run on the backend state `st` with the draw
its slug generator gets. -/
def shortener.Short {σ : Type} (s : shortener σ) (st : σ) (draw : Option Nat) (url : URL) :
    Option ((String × Option GoError) × σ) :=
  match shortenURL url.UserID url.CorrID url.Raw s.baseURL draw with
  | none => none
  | some (_, some _) => some (("", some GoError.ErrInvalidCreation), st)
  | some (su, none) =>
    match s.saver.Save st su.ToModel with
    | (some err, st1) =>
      if errorsIs err GoError.storageUniqueViolation then
        some (("", some GoError.ErrUniqueViolation), st1)
      else some (("", some err), st1)
    | (none, st1) => some ((su.Value, none), st1)

/-- The loop of `shortener.Batch` from index `i` on: `some (some l)` when every
item was shortened, `some none` when an item made `shortenURL` fail (the loop
returns at the first one), `none` on a panic.  Item `i` gets the draw
`draws i`. -/
def batchLoop (baseURL : String) (draws : Nat → Option Nat) :
    Nat → List URL → Option (Option (List shortenedURL))
  | _, [] => some (some [])
  | i, v :: vs =>
    match shortenURL v.UserID v.CorrID v.Raw baseURL (draws i) with
    | none => none
    | some (_, some _) => some none
    | some (su, none) =>
      match batchLoop baseURL draws (i + 1) vs with
      | none => none
      | some none => some none
      | some (some rest) => some (some (su :: rest))

/-- The method `shortener.Batch`. -/
def shortener.Batch {σ : Type} (s : shortener σ) (st : σ) (draws : Nat → Option Nat)
    (urls : Slice URL) : Option ((Slice ShortenedURL × Option GoError) × σ) :=
  if urls.len = 0 then some ((none, some GoError.ErrEmptyBatch), st)
  else
    match batchLoop s.baseURL draws 0 urls.elems with
    | none => none
    | some none => some ((none, some GoError.ErrInvalidCreation), st)
    | some (some sus) =>
      let urlsToBatch : Slice ShortenedURL := some (shortenedURLs.ToModel sus)
      match s.saver.Batch st urlsToBatch with
      | (err, st1) => some ((urlsToBatch, err), st1)

/-- A call received by a backend. -/
inductive Call where
  | Save (data : ShortenedURL)
  | Batch (urls : Slice ShortenedURL)
  deriving DecidableEq, Repr

/-- The test double `saverMock` of the service tests: it answers with `SaveFn`
and `BatchFn`.  Its state is a ghost log of the calls it received, oldest
first. -/
def saverMock (SaveFn : ShortenedURL → Option GoError)
    (BatchFn : Slice ShortenedURL → Option GoError) : urlSaver (List Call) :=
  { Save := fun log data => (SaveFn data, log ++ [Call.Save data]),
    Batch := fun log urls => (BatchFn urls, log ++ [Call.Batch urls]) }

/-! ## Memory store -/

/-- A Go `map[string]V`: an association list with pairwise distinct keys.  The
order of the list is one order in which `range` may visit the entries. -/
structure GoMap (V : Type) where
  entries : List (String × V)
  nodup : (entries.map Prod.fst).Nodup

/-- The empty map, `make(map[string]V)`. -/
def GoMap.empty {V : Type} : GoMap V := ⟨[], List.nodup_nil⟩

/-- The lookup `v, ok := m[k]`. -/
def GoMap.get {V : Type} (m : GoMap V) (k : String) : Option V :=
  (m.entries.find? fun p => p.1 = k).map Prod.snd

/-- The assignment `m[k] = v`. -/
def GoMap.set {V : Type} (m : GoMap V) (k : String) (v : V) : GoMap V :=
  ⟨(k, v) :: m.entries.filter (fun p => p.1 ≠ k), by
    have hsub : ((m.entries.filter fun p => p.1 ≠ k).map Prod.fst).Sublist
        (m.entries.map Prod.fst) := (List.filter_sublist m.entries).map Prod.fst
    rw [List.map_cons, List.nodup_cons]
    refine ⟨?_, m.nodup.sublist hsub⟩
    intro hk
    obtain ⟨p, hp, hpk⟩ := List.mem_map.mp hk
    have := (List.mem_filter.mp hp).2
    simp only [ne_eq, decide_not, Bool.not_eq_true', decide_eq_false_iff_not] at this
    exact this hpk⟩

/-- Go `len(m)`. -/
def GoMap.len {V : Type} (m : GoMap V) : Nat := m.entries.length

namespace memstorage

/-- The record `shortenedURL` of package `memstorage`; the slug is the map key. -/
structure shortenedURL where
  UserID : String
  CorrID : String
  Raw : String
  Value : String
  IsDeleted : Bool
  deriving DecidableEq, Repr

/-- The function `newShortenedURL`. -/
def newShortenedURL (s : ShortenedURL) : shortenedURL :=
  { UserID := s.UserID, CorrID := s.CorrID, Raw := s.Raw, Value := s.Value,
    IsDeleted := s.IsDeleted }

/-- The method `shortenedURL.ToModel` of package `memstorage`. -/
def shortenedURL.ToModel (s : shortenedURL) (slug : String) : ShortenedURL :=
  { UserID := s.UserID, CorrID := s.CorrID, Raw := s.Raw, Slug := slug, Value := s.Value,
    IsDeleted := s.IsDeleted }

/-- The struct `memStorage`; calls are taken one at a time, which is what its
lock enforces. -/
structure memStorage where
  data : GoMap shortenedURL

/-- The constructor `MemStorage`. -/
def MemStorage : memStorage := { data := GoMap.empty }

/-- The method `memStorage.Save`: the `range` loop returns at the first record
with the same `Raw` and `UserID`. -/
def memStorage.Save (ms : memStorage) (data : ShortenedURL) : Option GoError × memStorage :=
  if ms.data.entries.any fun p => decide (p.2.Raw = data.Raw) && decide (p.2.UserID = data.UserID)
  then (some GoError.storageUniqueViolation, ms)
  else (none, { data := ms.data.set data.Slug (newShortenedURL data) })

/-- The method `memStorage.Batch`. -/
def memStorage.Batch (ms : memStorage) (shortURLs : Slice ShortenedURL) :
    Option GoError × memStorage :=
  (none, shortURLs.elems.foldl
    (fun m v => { data := m.data.set v.Slug (newShortenedURL v) }) ms)

/-- The method `memStorage.GetBySlug`. -/
def memStorage.GetBySlug (ms : memStorage) (slug : String) : ShortenedURL × Option GoError :=
  match ms.data.get slug with
  | some v => (v.ToModel slug, none)
  | none => (ShortenedURL.zero, none)

/-- The method `memStorage.CollectByUser`.  The records come in the order in
which `range` visits the map. -/
def memStorage.CollectByUser (ms : memStorage) (userID : String) :
    Slice ShortenedURL × Option GoError :=
  if userID.length = 0 then (none, some (GoError.adhoc "userID is empty"))
  else
    (some ((ms.data.entries.filter fun p => decide (p.2.UserID = userID)).map
      fun p => p.2.ToModel p.1), none)

/-- The method `shortenedURL.SetDeleted` of package `memstorage`. -/
def shortenedURL.SetDeleted (s : shortenedURL) : shortenedURL :=
  { s with IsDeleted := true }

/-- The constant `workPoolSize`. -/
def workPoolSize : Nat := 10

/-- The number of workers `memStorage.Delete` starts. -/
def wcount (slugs : Slice String) : Nat :=
  if slugs.len < workPoolSize ∧ slugs.len ≥ 1 then slugs.len else workPoolSize

/-- What a worker of `memStorage.Delete` does with one slug while it holds the
lock. -/
def memStorage.deleteSlug (ms : memStorage) (userID slug : String) : memStorage :=
  match ms.data.get slug with
  | some v =>
    if v.UserID = userID then { data := ms.data.set slug v.SetDeleted } else ms
  | none => ms

/-- The method `memStorage.Delete`.  Every slug goes through the channel once
and is handled by one worker under the lock, so a run is the list `sched` of
the slugs in the order in which the workers got the lock; `sched` is a
permutation of `slugs`.  The call returns after all workers are done. -/
def memStorage.Delete (ms : memStorage) (userID : String) (sched : List String) :
    Option GoError × memStorage :=
  (none, sched.foldl (fun m slug => m.deleteSlug userID slug) ms)

/-- The method `memStorage.Stat`: its goroutine always sends on `done`. -/
def memStorage.Stat (ms : memStorage) : Stat × Option GoError :=
  ({ URLs := ms.data.len,
     Users := (ms.data.entries.foldl (fun users p => users.set p.2.UserID ())
       (GoMap.empty : GoMap Unit)).len }, none)

/-- The seeding loop of the store tests: it saves the records in order and
requires each `Save` to return nil; `none` when one does not. -/
def seed : memStorage → List ShortenedURL → Option memStorage
  | ms, [] => some ms
  | ms, e :: rs =>
    match ms.Save e with
    | (none, ms1) => seed ms1 rs
    | (some _, _) => none

/-- The records that the test `TestMemStorage_Stat` saves: 10 URLs of 7 users. -/
def statRecords : List ShortenedURL :=
  [⟨"1", "1", "http://demo.com", "slug1", "http://127.0.0.1/slug1", false⟩,
   ⟨"1", "1", "http://demo2.com", "slug2", "http://127.0.0.1/slug2", false⟩,
   ⟨"2", "1", "http://demo3.com", "slug3", "http://127.0.0.1/slug3", false⟩,
   ⟨"2", "1", "http://demo4.com", "slug4", "http://127.0.0.1/slug4", false⟩,
   ⟨"3", "1", "http://demo5.com", "slug5", "http://127.0.0.1/slug5", false⟩,
   ⟨"3", "1", "http://demo6.com", "slug6", "http://127.0.0.1/slug6", false⟩,
   ⟨"4", "1", "http://demo7.com", "slug7", "http://127.0.0.1/slug7", false⟩,
   ⟨"5", "1", "http://demo8.com", "slug8", "http://127.0.0.1/slug8", false⟩,
   ⟨"6", "1", "http://demo9.com", "slug9", "http://127.0.0.1/slug9", false⟩,
   ⟨"7", "1", "http://demo10.com", "slug10", "http://127.0.0.1/slug10", false⟩]

/-- The loop of `memStorage.GetByURL` over the map, `visit` being the entries
in the order in which `range` visits them: the first entry visited whose `Raw`
is the URL is returned. -/
def rangeByURL (visit : List (String × shortenedURL)) (url : String) :
    ShortenedURL × Option GoError :=
  match visit.find? fun p => decide (p.2.Raw = url) with
  | some p => (p.2.ToModel p.1, none)
  | none => (ShortenedURL.zero, none)

/-- The method `memStorage.GetByURL`, the map visited in the order of its
entries. -/
def memStorage.GetByURL (ms : memStorage) (url : String) : ShortenedURL × Option GoError :=
  rangeByURL ms.data.entries url

/-- A call of one of the writing methods of the memory store; for `Delete` the
slug list and the order `sched` in which the workers take the slugs. -/
inductive Op where
  | Save (data : ShortenedURL)
  | Batch (shortURLs : Slice ShortenedURL)
  | Delete (userID : String) (slugs : Slice String) (sched : List String)

/-- The store after a call. -/
def memStorage.step (ms : memStorage) : Op → memStorage
  | Op.Save data => (ms.Save data).2
  | Op.Batch shortURLs => (ms.Batch shortURLs).2
  | Op.Delete userID _ sched => (ms.Delete userID sched).2

/-- The store after a sequence of calls. -/
def memStorage.run (ms : memStorage) (ops : List Op) : memStorage :=
  ops.foldl memStorage.step ms

/-- No two stored records share both `Raw` and `UserID`. -/
def memStorage.UniquePairs (ms : memStorage) : Prop :=
  ∀ s1 s2 r1 r2, ms.data.get s1 = some r1 → ms.data.get s2 = some r2 →
    r1.Raw = r2.Raw → r1.UserID = r2.UserID → s1 = s2

/-- The memory store seen through the interface `urlSaver`. -/
def saver : urlSaver memStorage :=
  { Save := memStorage.Save, Batch := memStorage.Batch }

end memstorage

/-! ## File store -/

namespace filestorage

/-- The struct `ShortenedURL` of package `filestorage`. -/
structure ShortenedURL where
  Slug : String
  UserID : String
  CorrID : String
  Value : String
  Raw : String
  IsDeleted : Bool
  deriving DecidableEq, Repr

/-- The zero value `ShortenedURL{}` of package `filestorage`. -/
def ShortenedURL.zero : ShortenedURL :=
  { Slug := "", UserID := "", CorrID := "", Value := "", Raw := "", IsDeleted := false }

/-- The function `newShortenedURL` of package `filestorage`. -/
def newShortenedURL (s : Shortener.ShortenedURL) : ShortenedURL :=
  { UserID := s.UserID, CorrID := s.CorrID, Raw := s.Raw, Slug := s.Slug, Value := s.Value,
    IsDeleted := s.IsDeleted }

/-- The method `ShortenedURL.ToModel` of package `filestorage`. -/
def ShortenedURL.ToModel (s : ShortenedURL) : Shortener.ShortenedURL :=
  { UserID := s.UserID, CorrID := s.CorrID, Raw := s.Raw, Slug := s.Slug, Value := s.Value,
    IsDeleted := s.IsDeleted }

/-- The method `shortenedURLs.ToModel` of package `filestorage`. -/
def shortenedURLs.ToModel (s : List ShortenedURL) : List Shortener.ShortenedURL :=
  s.map ShortenedURL.ToModel

/-- Modelled from the spec: the codec of a record, the methods `MarshalMsg` and
`DecodeMsg` that `go:generate msgp` makes for `ShortenedURL`, is not among the
sources.  `MarshalMsg z` gives the bytes of `z` and an error.  `DecodeMsg`
reads one record from the unread bytes into its receiver (the first argument
is the receiver's old value) and gives the receiver's new value, an error and
the bytes left unread. -/
structure Codec where
  MarshalMsg : ShortenedURL → List Nat × Option GoError
  DecodeMsg : ShortenedURL → List Nat → (ShortenedURL × Option GoError) × List Nat

/-- Modelled from the spec: what the spec asks of the codec, "internal
round-trip fidelity (write then replay must reproduce the same records in write
order)" over "self-describing binary records", replayed "to end-of-file".
A marshalled record decodes to itself and leaves what follows it unread; at
the end of the bytes the decoder reports an error that wraps `io.EOF` (the
test `reader.List` makes); a decoded record takes at least one byte. -/
structure Codec.Lawful (c : Codec) : Prop where
  roundTrip : ∀ (z prev : ShortenedURL) (b rest : List Nat),
    c.MarshalMsg z = (b, none) → c.DecodeMsg prev (b ++ rest) = ((z, none), rest)
  endOfFile : ∀ prev : ShortenedURL, ∃ z e,
    c.DecodeMsg prev [] = ((z, some e), []) ∧ errorsUnwrap e = some GoError.EOF
  consumes : ∀ (prev z : ShortenedURL) (s rest : List Nat),
    c.DecodeMsg prev s = ((z, none), rest) → rest.length < s.length

/-- The method `msgpWriter.Write` on a file with content `file`, opened for
appending.  `werr` is the error of `file.Write`; a write that fails leaves
the file as it was. -/
def msgpWriter.Write (c : Codec) (file : List Nat) (werr : Option GoError)
    (data : ShortenedURL) : Option GoError × List Nat :=
  match c.MarshalMsg data with
  | (_, some err) => (some err, file)
  | (b, none) =>
    match werr with
    | some err => (some err, file)
    | none => (none, file ++ b)

/-- The decoding loop of `msgpReader.List`: `record` is the variable the loop
decodes into, `records` the slice built so far, the last argument the unread
bytes.  It ends at the first decoding error and gives the slice, that error
and the bytes left.  A round that decodes takes a byte, so the loop is given
one round more than there are bytes; `stuck` stands for a loop that goes on
beyond that. -/
def listLoop (c : Codec) :
    Nat → ShortenedURL → Slice ShortenedURL → List Nat →
      Run ((Slice ShortenedURL × GoError) × List Nat)
  | 0, _, _, _ => Run.stuck
  | fuel + 1, record, records, s =>
    match c.DecodeMsg record s with
    | ((z, none), rest) => listLoop c fuel z (records.append z) rest
    | ((_, some err), rest) => Run.done ((records, err), rest)

/-- The method `msgpReader.List` with its deferred `rewind`, on a file with
content `file` whose reader stands at offset `pos`.  `seek` is the error of
`file.Seek(0, io.SeekStart)`.  The result is the records, the error and the
reader's new offset.  The deferred function sets the returned error to the
result of `rewind`, whatever the body returned. -/
def msgpReader.List (c : Codec) (file : List Nat) (pos : Nat) (seek : Option GoError) :
    Run ((Slice ShortenedURL × Option GoError) × Nat) :=
  match listLoop c ((file.drop pos).length + 1) ShortenedURL.zero none (file.drop pos) with
  | Run.stuck => Run.stuck
  | Run.done ((records, err), rest) =>
    let records : Slice ShortenedURL :=
      if errorsUnwrap err ≠ some GoError.EOF then none else records
    match seek with
    | some e => Run.done ((records, some e), file.length - rest.length)
    | none => Run.done ((records, none), 0)

/-- The struct `fileStorage`: the content of the file its two handles are open
on, the offset of the reader, and whether the mutex is held. -/
structure fileStorage where
  file : List Nat
  rpos : Nat
  mtx : Bool
  deriving DecidableEq, Repr

/-- The method `fileStorage.GetBySlug`. -/
def fileStorage.GetBySlug (c : Codec) (fs : fileStorage) (seek : Option GoError)
    (slug : String) : Run ((Shortener.ShortenedURL × Option GoError) × fileStorage) :=
  if fs.mtx then Run.stuck
  else
    match msgpReader.List c fs.file fs.rpos seek with
    | Run.stuck => Run.stuck
    | Run.done ((records, err), rpos) =>
      match err with
      | some e => Run.done ((Shortener.ShortenedURL.zero, some e), { fs with rpos := rpos })
      | none =>
        match records.elems.find? fun r => decide (r.Slug = slug) with
        | some r => Run.done ((r.ToModel, none), { fs with rpos := rpos })
        | none => Run.done ((Shortener.ShortenedURL.zero, none), { fs with rpos := rpos })

/-- The method `fileStorage.GetByURL`. -/
def fileStorage.GetByURL (c : Codec) (fs : fileStorage) (seek : Option GoError)
    (url : String) : Run ((Shortener.ShortenedURL × Option GoError) × fileStorage) :=
  if fs.mtx then Run.stuck
  else
    match msgpReader.List c fs.file fs.rpos seek with
    | Run.stuck => Run.stuck
    | Run.done ((records, err), rpos) =>
      match err with
      | some e => Run.done ((Shortener.ShortenedURL.zero, some e), { fs with rpos := rpos })
      | none =>
        match records.elems.find? fun r => decide (r.Raw = url) with
        | some r => Run.done ((r.ToModel, none), { fs with rpos := rpos })
        | none => Run.done ((Shortener.ShortenedURL.zero, none), { fs with rpos := rpos })

/-- The decoding loop of `msgpReader.List` run on a file from the offset `pos`:
the records decoded, the error the loop stopped on, and the bytes left. -/
def decodeAll (c : Codec) (file : List Nat) (pos : Nat) :
    Run ((Slice ShortenedURL × GoError) × List Nat) :=
  listLoop c ((file.drop pos).length + 1) ShortenedURL.zero none (file.drop pos)

/-- The first loop of `fileStorage.CollectByUser`: the indexes, from `i` on, of
the records of the user. -/
def collectIdxs (userID : String) : Nat → List ShortenedURL → List Nat
  | _, [] => []
  | i, r :: rs =>
    if r.UserID = userID then i :: collectIdxs userID (i + 1) rs
    else collectIdxs userID (i + 1) rs

/-- The method `fileStorage.CollectByUser`. -/
def fileStorage.CollectByUser (c : Codec) (fs : fileStorage) (seek : Option GoError)
    (userID : String) : Run ((Slice Shortener.ShortenedURL × Option GoError) × fileStorage) :=
  if userID.length = 0 then Run.done ((none, some (GoError.adhoc "userID is empty")), fs)
  else if fs.mtx then Run.stuck
  else
    match msgpReader.List c fs.file fs.rpos seek with
    | Run.stuck => Run.stuck
    | Run.done ((records, err), rpos) =>
      match err with
      | some e => Run.done ((none, some e), { fs with rpos := rpos })
      | none =>
        let idxs := collectIdxs userID 0 records.elems
        let results := idxs.map fun idx => records.elems.getD idx ShortenedURL.zero
        Run.done ((some (shortenedURLs.ToModel results), none), { fs with rpos := rpos })

/-- The method `fileStorage.Save`. -/
def fileStorage.Save (c : Codec) (fs : fileStorage) (werr : Option GoError)
    (data : Shortener.ShortenedURL) : Run (Option GoError × fileStorage) :=
  if fs.mtx then Run.stuck
  else
    match msgpWriter.Write c fs.file werr (newShortenedURL data) with
    | (err, file) => Run.done (err, { fs with file := file })

/-- The loop of `fileStorage.Batch` from index `i` on: the content of the file
when the loop ends and whether it ended on a failed write.  The write of
record `i` gets the error `werrs i`. -/
def writeAll (c : Codec) (werrs : Nat → Option GoError) :
    Nat → List Nat → List Shortener.ShortenedURL → List Nat × Bool
  | _, file, [] => (file, false)
  | i, file, r :: rs =>
    match msgpWriter.Write c file (werrs i) (newShortenedURL r) with
    | (some _, file1) => (file1, true)
    | (none, file1) => writeAll c werrs (i + 1) file1 rs

/-- The method `fileStorage.Batch`.  On a failed write it returns nil before
it reaches `Unlock`, so the mutex stays held. -/
def fileStorage.Batch (c : Codec) (fs : fileStorage) (werrs : Nat → Option GoError)
    (records : Slice Shortener.ShortenedURL) : Run (Option GoError × fileStorage) :=
  if fs.mtx then Run.stuck
  else
    match writeAll c werrs 0 fs.file records.elems with
    | (file, true) => Run.done (none, { fs with file := file, mtx := true })
    | (file, false) => Run.done (none, { fs with file := file, mtx := false })

/-- The method `fileStorage.Delete`: it takes no lock and touches nothing. -/
def fileStorage.Delete (fs : fileStorage) (_userID : String) (_slugs : Slice String) :
    Option GoError × fileStorage :=
  (some (GoError.adhoc "not implemented"), fs)

/-- The method `fileStorage.Stat`.  When `List` returns an error the goroutine
returns without sending on `done`, and the caller waits on `done` for ever. -/
def fileStorage.Stat (c : Codec) (fs : fileStorage) (seek : Option GoError) :
    Run ((Stat × Option GoError) × fileStorage) :=
  if fs.mtx then Run.stuck
  else
    match msgpReader.List c fs.file fs.rpos seek with
    | Run.stuck => Run.stuck
    | Run.done ((records, err), rpos) =>
      match err with
      | some _ => Run.stuck
      | none =>
        Run.done (({ URLs := records.len,
                     Users := (records.elems.foldl (fun users v => users.set v.UserID ())
                       (GoMap.empty : GoMap Unit)).len }, none), { fs with rpos := rpos })

/-- The seeding loop of the file store tests: it saves the records in order,
every write succeeding, and requires each `Save` to return nil; `none` when one
does not. -/
def seed (c : Codec) : fileStorage → List Shortener.ShortenedURL → Option fileStorage
  | fs, [] => some fs
  | fs, e :: rs =>
    match fileStorage.Save c fs none e with
    | Run.done (none, fs1) => seed c fs1 rs
    | _ => none

/-- The content of the file after `msgpWriter.Write` has been called with each
record in turn, every write of the file succeeding and every call returning
nil; `none` when a call returns an error. -/
def writes (c : Codec) : List Nat → List ShortenedURL → Option (List Nat)
  | file, [] => some file
  | file, z :: zs =>
    match msgpWriter.Write c file none z with
    | (none, file1) => writes c file1 zs
    | (some _, _) => none

/-- The bytes of a log that holds the records `rs` in write order: the
marshalled records one after the other; `none` when a record does not
marshal. -/
def logOf (c : Codec) : List ShortenedURL → Option (List Nat)
  | [] => some []
  | z :: rs =>
    match c.MarshalMsg z, logOf c rs with
    | (b, none), some l => some (b ++ l)
    | _, _ => none

/-- A string as its length followed by the codes of its characters. -/
def putString (s : String) : List Nat := s.length :: s.data.map Char.toNat

/-- Reads back what `putString` wrote. -/
def getString : List Nat → Option (String × List Nat)
  | [] => none
  | n :: t =>
    if n ≤ t.length then some (String.mk ((t.take n).map Char.ofNat), t.drop n) else none

/-- The fields of a record, one after the other. -/
def putRecord (z : ShortenedURL) : List Nat :=
  putString z.Slug ++ (putString z.UserID ++ (putString z.CorrID ++ (putString z.Value ++
    (putString z.Raw ++ [if z.IsDeleted then 1 else 0]))))

/-- Reads back what `putRecord` wrote. -/
def getRecord (s : List Nat) : Option ShortenedURL :=
  match getString s with
  | none => none
  | some (slug, s1) =>
    match getString s1 with
    | none => none
    | some (userID, s2) =>
      match getString s2 with
      | none => none
      | some (corrID, s3) =>
        match getString s3 with
        | none => none
        | some (value, s4) =>
          match getString s4 with
          | none => none
          | some (raw, s5) =>
            match s5 with
            | [0] => some ⟨slug, userID, corrID, value, raw, false⟩
            | [1] => some ⟨slug, userID, corrID, value, raw, true⟩
            | _ => none

/-- A codec that meets `Codec.Lawful`, to run the store on concrete logs.  It
is not the MessagePack encoding: a record is written as the length of its
fields followed by its fields. -/
def frameCodec : Codec :=
  { MarshalMsg := fun z => ((putRecord z).length :: putRecord z, none),
    DecodeMsg := fun prev s =>
      match s with
      | [] => ((prev, some (GoError.wrap "msgp: EOF" GoError.EOF)), [])
      | n :: t =>
        if n ≤ t.length then
          match getRecord (t.take n) with
          | some z => ((z, none), t.drop n)
          | none => ((prev, some (GoError.adhoc "msgp: bad record")), t.drop n)
        else ((prev, some (GoError.adhoc "msgp: short record")), []) }

end filestorage

/-! ## Relational store -/

namespace postgres

/-- What the database answers during one call: the error of `pool.BeginTx`,
the error of `tx.Query` for a statement and its argument, the rows it yields
(each with the record `Scan` fills and the error of `Scan`), and the error of
`rows.Err`. -/
structure Answers where
  BeginTx : Option GoError
  Query : String → String → Option GoError
  Rows : String → String → List (ShortenedURL × Option GoError)
  RowsErr : Option GoError

/-- The statement `listByUserID`. -/
def listByUserID : String := "SELECT * FROM shorturls WHERE user_id = $1"

/-- The loop `for rows.Next()` of `CollectByUser`: the records scanned, or the
first error of `Scan`. -/
def scanRows : List (ShortenedURL × Option GoError) → List ShortenedURL →
    Except GoError (List ShortenedURL)
  | [], records => Except.ok records
  | (_, some err) :: _, _ => Except.error err
  | (r, none) :: rows, records => scanRows rows (records ++ [r])

/-- The method `shortURLProvider.CollectByUser`.  It makes no test on `userID`.
When `rows.Err()` is not nil it returns `nil, err` with `err` still nil. -/
def CollectByUser (db : Answers) (userID : String) : Slice ShortenedURL × Option GoError :=
  match db.BeginTx with
  | some err => (none, some err)
  | none =>
    match db.Query listByUserID userID with
    | some err => (none, some err)
    | none =>
      match scanRows (db.Rows listByUserID userID) [] with
      | Except.error err => (none, some err)
      | Except.ok records =>
        if db.RowsErr ≠ none then (none, none) else (some records, none)

end postgres

/-! ## HTTP handler `getBySlug` -/

namespace httpv1

/-- What the handler leaves in the `gin.Context`: the status code, the
`Location` header and the value under `error` of the JSON body. -/
structure Response where
  Status : Nat
  Location : Option String
  JSONError : Option GoError
  deriving DecidableEq, Repr

/-- The method `gin.Context.Header` for the `Location` header: an empty value
removes the header. -/
def setLocation (value : String) : Option String :=
  if value = "" then none else some value

/-- Go `http.Header.Get`: the empty string for a header that is not set. -/
def Response.getLocation (r : Response) : String := r.Location.getD ""

/-- The handler `getBySlug`, for the value `slug` of the path parameter.  The
provider is the method `GetBySlug` of the interface `getterBySlug`. -/
def getBySlug (provider : String → ShortenedURL × Option GoError) (slug : String) : Response :=
  if slug.length = 0 then { Status := 400, Location := none, JSONError := none }
  else
    match provider slug with
    | (_, some err) => { Status := 500, Location := none, JSONError := some err }
    | (shortenedURL, none) =>
      if shortenedURL.Empty then { Status := 404, Location := none, JSONError := none }
      else if shortenedURL.IsDeleted then { Status := 410, Location := none, JSONError := none }
      else { Status := 307, Location := setLocation shortenedURL.Raw, JSONError := none }

end httpv1

/-! ## Lemmas on the embedding -/

theorem base62Loop_length (n base : Nat) : (base62Loop n base).length = n := by
  induction n generalizing base with
  | zero => rfl
  | succ n ih => simp [base62Loop, ih]

theorem base62Loop_mem (n base : Nat) : ∀ c ∈ base62Loop n base, c ∈ base62Alphabet := by
  induction n generalizing base with
  | zero => intro c hc; simp [base62Loop] at hc
  | succ n ih =>
    intro c hc
    simp only [base62Loop, List.mem_cons] at hc
    rcases hc with rfl | hc
    · exact List.get_mem _ _ _
    · exact ih _ c hc

theorem Contains_singleton (c : Char) (s : List Char) : Contains s [c] = true ↔ c ∈ s := by
  induction s with
  | nil => simp [Contains]
  | cons d s ih =>
    simp only [Contains, HasPrefix, Bool.or_eq_true, ih, List.mem_cons]
    constructor
    · rintro (h | h)
      · left
        simp [List.isPrefixOf] at h
        exact h
      · exact Or.inr h
    · rintro (h | h)
      · left
        simp [List.isPrefixOf, h]
      · exact Or.inr h

theorem String_length_eq_zero (s : String) : s.length = 0 ↔ s = "" := by
  cases s with
  | mk l =>
    cases l with
    | nil => simp
    | cons c l =>
      simp only [String.length, List.length_cons, Nat.add_one_ne_zero, false_iff]
      intro h
      have := congrArg String.data h
      simp at this

theorem parseAfterScheme_host_scheme (scheme rest : List Char) (uri : ParsedURL)
    (h : parseAfterScheme scheme rest = some uri) (hhost : uri.Host ≠ "") :
    uri.Scheme ≠ "" := by
  unfold parseAfterScheme at h
  repeat' split at h
  all_goals first
    | (cases h; done)
    | (cases h; exact absurd rfl hhost)
    | (cases h
       intro hc
       have hd := congrArg String.data hc
       simp only at hd
       simp_all)

/-- A parsed request URI whose host is not empty has a scheme. -/
theorem parse_host_scheme (raw : List Char) (uri : ParsedURL) (h : parse raw = some uri)
    (hhost : uri.Host ≠ "") : uri.Scheme ≠ "" := by
  unfold parse at h
  split_ifs at h with h1 h2 h3
  · cases h; exact absurd rfl hhost
  · split at h
    · cases h
    · exact parseAfterScheme_host_scheme _ _ uri h hhost

theorem base62_seven (v : Nat) :
    base62 7 (some v) = some (String.mk (base62Loop 7 (v % 2 ^ 64)), none) := rfl

/-- What `shortenURL` returns when every check passes and the draw succeeds. -/
theorem shortenURL_of_valid (userID corrID rawURI baseURL : String) (v : Nat)
    (h : validCreation userID rawURI baseURL = true) :
    shortenURL userID corrID rawURI baseURL (some v) =
      some ({ UserID := userID, CorrID := corrID, Raw := rawURI,
              Slug := String.mk (base62Loop 7 (v % 2 ^ 64)),
              Value := baseURL ++ "/" ++ String.mk (base62Loop 7 (v % 2 ^ 64)),
              IsDeleted := false }, none) := by
  unfold validCreation at h
  unfold shortenURL
  simp only [Bool.and_eq_true, bne_iff_ne, ne_eq] at h
  obtain ⟨⟨⟨h1, h2⟩, h3⟩, h4⟩ := h
  rw [if_neg h1, if_neg h2]
  unfold ParseRequestURI at h3 ⊢
  cases hp : parse rawURI.data with
  | none => rw [hp] at h3; simp at h3
  | some uri =>
    rw [hp] at h3
    simp only [Bool.or_eq_true] at h3
    have h5 : (!ParseIP uri.Host && !Contains uri.Host.data ['.']) = false := by
      rcases h3 with h3 | h3 <;> simp [h3]
    simp only [h5, Bool.false_eq_true, if_false, if_neg h4, base62_seven]

/-- What `shortenURL` returns when a check fails, whatever the draw. -/
theorem shortenURL_of_invalid (userID corrID rawURI baseURL : String) (draw : Option Nat)
    (h : validCreation userID rawURI baseURL = false) :
    ∃ err, shortenURL userID corrID rawURI baseURL draw = some (shortenedURL.zero, some err) := by
  unfold validCreation at h
  unfold shortenURL
  by_cases h1 : userID.length = 0
  · exact ⟨_, by rw [if_pos h1]⟩
  by_cases h2 : rawURI.length = 0
  · exact ⟨_, by rw [if_neg h1, if_pos h2]⟩
  rw [if_neg h1, if_neg h2]
  unfold ParseRequestURI at h ⊢
  cases hp : parse rawURI.data with
  | none => exact ⟨_, rfl⟩
  | some uri =>
    rw [hp] at h
    simp only
    by_cases h5 : (!ParseIP uri.Host && !Contains uri.Host.data ['.']) = true
    · exact ⟨_, by rw [if_pos h5]⟩
    by_cases h4 : baseURL.length = 0
    · exact ⟨_, by rw [if_neg h5, if_pos h4]⟩
    exfalso
    have e1 : (userID.length != 0) = true := by simp [h1]
    have e2 : (rawURI.length != 0) = true := by simp [h2]
    have e4 : (baseURL.length != 0) = true := by simp [h4]
    rw [e1, e2, e4] at h
    cases hip : ParseIP uri.Host <;> cases hdot : Contains uri.Host.data ['.'] <;>
      simp [hip, hdot] at h h5

/-- With a failed draw `shortenURL` fails even when every check passes. -/
theorem shortenURL_of_valid_nodraw (userID corrID rawURI baseURL : String)
    (h : validCreation userID rawURI baseURL = true) :
    ∃ err, shortenURL userID corrID rawURI baseURL none = some (shortenedURL.zero, some err) := by
  unfold validCreation at h
  unfold shortenURL
  simp only [Bool.and_eq_true, bne_iff_ne, ne_eq] at h
  obtain ⟨⟨⟨h1, h2⟩, h3⟩, h4⟩ := h
  rw [if_neg h1, if_neg h2]
  unfold ParseRequestURI at h3 ⊢
  cases hp : parse rawURI.data with
  | none => rw [hp] at h3; simp at h3
  | some uri =>
    rw [hp] at h3
    simp only [Bool.or_eq_true] at h3
    have h5 : (!ParseIP uri.Host && !Contains uri.Host.data ['.']) = false := by
      rcases h3 with h3 | h3 <;> simp [h3]
    simp only [h5, Bool.false_eq_true, if_false, if_neg h4]
    exact ⟨_, rfl⟩

/-- The checks of `shortenURL` in the words of the validity rule: non-empty
user id, non-empty raw URL that parses, with a scheme, to a host that
`net.ParseIP` accepts or that holds a `.`, and a non-empty base URL. -/
theorem validCreation_iff (userID rawURI baseURL : String) :
    validCreation userID rawURI baseURL = true ↔
      userID ≠ "" ∧ rawURI ≠ "" ∧
      (∃ uri, ParseRequestURI rawURI = (some uri, none) ∧ uri.Scheme ≠ "" ∧
        (ParseIP uri.Host = true ∨ '.' ∈ uri.Host.data)) ∧
      baseURL ≠ "" := by
  unfold validCreation
  simp only [Bool.and_eq_true, bne_iff_ne, ne_eq, String_length_eq_zero]
  unfold ParseRequestURI
  cases hp : parse rawURI.data with
  | none => simp
  | some uri =>
    simp only [Bool.or_eq_true, Contains_singleton, Prod.mk.injEq, Option.some.injEq, and_true]
    constructor
    · rintro ⟨⟨⟨h1, h2⟩, h3⟩, h4⟩
      refine ⟨h1, h2, ⟨uri, rfl, ?_, h3⟩, h4⟩
      apply parse_host_scheme _ _ hp
      intro h0
      rw [h0] at h3
      revert h3
      decide
    · rintro ⟨h1, h2, ⟨u, rfl, _, h3⟩, h4⟩
      exact ⟨⟨⟨h1, h2⟩, h3⟩, h4⟩

theorem GoMap.get_set_same {V : Type} (m : GoMap V) (k : String) (v : V) :
    (m.set k v).get k = some v := by
  simp [GoMap.get, GoMap.set]

theorem GoMap.mem_entries_iff {V : Type} (m : GoMap V) (k : String) (v : V) :
    (k, v) ∈ m.entries ↔ m.get k = some v := by
  obtain ⟨l, hl⟩ := m
  simp only [GoMap.get]
  induction l with
  | nil => simp
  | cons p l ih =>
    rw [List.map_cons, List.nodup_cons] at hl
    by_cases hk : p.1 = k
    · have hnot : ∀ w, (k, w) ∉ l := by
        intro w hw
        exact hl.1 (List.mem_map.mpr ⟨(k, w), hw, hk.symm⟩)
      simp only [List.mem_cons, List.find?_cons, hk, decide_True, Option.map_some',
        Option.some.injEq]
      constructor
      · rintro (h | h)
        · rw [← h]
        · exact absurd h (hnot v)
      · intro h
        left
        rw [← h, ← hk]
    · have hne : (k, v) ≠ p := by
        intro h
        exact hk (by rw [← h])
      simp only [List.mem_cons, hne, false_or, List.find?_cons, hk, decide_False]
      exact ih hl.2

theorem memstorage.Save_any_iff (ms : memstorage.memStorage) (e : ShortenedURL) :
    (ms.data.entries.any fun p => decide (p.2.Raw = e.Raw) && decide (p.2.UserID = e.UserID)) = true ↔
      ∃ slug r, ms.data.get slug = some r ∧ r.Raw = e.Raw ∧ r.UserID = e.UserID := by
  simp only [List.any_eq_true, Bool.and_eq_true, decide_eq_true_eq]
  constructor
  · rintro ⟨⟨k, r⟩, hmem, h1, h2⟩
    exact ⟨k, r, (GoMap.mem_entries_iff _ _ _).mp hmem, h1, h2⟩
  · rintro ⟨k, r, hget, h1, h2⟩
    exact ⟨(k, r), (GoMap.mem_entries_iff _ _ _).mpr hget, h1, h2⟩

/-- The entity `Short` and `Batch` build for a request when the draw is `v`. -/
theorem Short_of_valid {σ : Type} (s : shortener σ) (st : σ) (url : URL) (v : Nat)
    (h : validCreation url.UserID url.Raw s.baseURL = true) :
    s.Short st (some v) url =
      match s.saver.Save st
          { UserID := url.UserID, CorrID := url.CorrID, Raw := url.Raw,
            Slug := String.mk (base62Loop 7 (v % 2 ^ 64)),
            Value := s.baseURL ++ "/" ++ String.mk (base62Loop 7 (v % 2 ^ 64)),
            IsDeleted := false } with
      | (some err, st1) =>
        if errorsIs err GoError.storageUniqueViolation then
          some (("", some GoError.ErrUniqueViolation), st1)
        else some (("", some err), st1)
      | (none, st1) =>
        some ((s.baseURL ++ "/" ++ String.mk (base62Loop 7 (v % 2 ^ 64)), none), st1) := by
  unfold shortener.Short
  rw [shortenURL_of_valid _ _ _ _ v h]
  rfl

theorem memstorage.Save_of_fresh (ms : memstorage.memStorage) (e : ShortenedURL)
    (h : (ms.data.entries.any fun p =>
      decide (p.2.Raw = e.Raw) && decide (p.2.UserID = e.UserID)) = false) :
    ms.Save e = (none, { data := ms.data.set e.Slug (memstorage.newShortenedURL e) }) := by
  unfold memstorage.memStorage.Save
  rw [h]
  rfl

theorem memstorage.Save_of_present (ms : memstorage.memStorage) (e : ShortenedURL)
    (h : (ms.data.entries.any fun p =>
      decide (p.2.Raw = e.Raw) && decide (p.2.UserID = e.UserID)) = true) :
    ms.Save e = (some GoError.storageUniqueViolation, ms) := by
  unfold memstorage.memStorage.Save
  rw [h]
  rfl

theorem batchLoop_of_invalid (baseURL : String) (draws : Nat → Option Nat) (l : List URL)
    (i : Nat) (h : ∃ u ∈ l, validCreation u.UserID u.Raw baseURL = false) :
    batchLoop baseURL draws i l = some none := by
  induction l generalizing i with
  | nil =>
    obtain ⟨u, hu, _⟩ := h
    cases hu
  | cons w l ih =>
    unfold batchLoop
    cases hw : validCreation w.UserID w.Raw baseURL with
    | false =>
      obtain ⟨err, he⟩ := shortenURL_of_invalid w.UserID w.CorrID w.Raw baseURL (draws i) hw
      rw [he]
    | true =>
      have htail : ∃ u ∈ l, validCreation u.UserID u.Raw baseURL = false := by
        obtain ⟨u, hu, hinv⟩ := h
        rcases List.mem_cons.mp hu with rfl | hu
        · rw [hw] at hinv
          cases hinv
        · exact ⟨u, hu, hinv⟩
      cases hd : draws i with
      | none =>
        obtain ⟨err, he⟩ := shortenURL_of_valid_nodraw w.UserID w.CorrID w.Raw baseURL hw
        rw [he]
      | some v =>
        rw [shortenURL_of_valid _ _ _ _ v hw]
        simp only [ih (i + 1) htail]

theorem batchLoop_of_valid (baseURL : String) (vs : Nat → Nat) (l : List URL) (i : Nat)
    (h : ∀ u ∈ l, validCreation u.UserID u.Raw baseURL = true) :
    ∃ sus : List shortenedURL,
      batchLoop baseURL (fun j => some (vs j)) i l = some (some sus) ∧
      sus.length = l.length ∧
      ∀ j u, l[j]? = some u →
        sus[j]? = some
          ({ UserID := u.UserID, CorrID := u.CorrID, Raw := u.Raw,
             Slug := String.mk (base62Loop 7 (vs (i + j) % 2 ^ 64)),
             Value := baseURL ++ "/" ++ String.mk (base62Loop 7 (vs (i + j) % 2 ^ 64)),
             IsDeleted := false } : shortenedURL) := by
  induction l generalizing i with
  | nil =>
    refine ⟨[], rfl, rfl, ?_⟩
    intro j u hj
    simp at hj
  | cons w l ih =>
    obtain ⟨rest, hrest, hlen, hpt⟩ := ih (i + 1) (fun u hu => h u (List.mem_cons_of_mem _ hu))
    refine ⟨({ UserID := w.UserID, CorrID := w.CorrID, Raw := w.Raw,
               Slug := String.mk (base62Loop 7 (vs i % 2 ^ 64)),
               Value := baseURL ++ "/" ++ String.mk (base62Loop 7 (vs i % 2 ^ 64)),
               IsDeleted := false } : shortenedURL) :: rest, ?_, ?_, ?_⟩
    · unfold batchLoop
      rw [shortenURL_of_valid _ _ _ _ (vs i) (h w (List.mem_cons_self _ _))]
      simp only [hrest]
    · simp [hlen]
    · intro j u hj
      cases j with
      | zero =>
        simp only [List.getElem?_cons_zero, Option.some.injEq] at hj
        subst hj
        simp
      | succ j =>
        simp only [List.getElem?_cons_succ] at hj ⊢
        have := hpt j u hj
        rw [this]
        have e : i + 1 + j = i + (j + 1) := by omega
        rw [e]

theorem find_filter_ne {V : Type} (l : List (String × V)) (k k1 : String) (h : k1 ≠ k) :
    (l.filter fun p => decide (p.1 ≠ k)).find? (fun p => decide (p.1 = k1)) =
      l.find? fun p => decide (p.1 = k1) := by
  induction l with
  | nil => rfl
  | cons p l ih =>
    by_cases hp : p.1 = k
    · have hp1 : ¬ p.1 = k1 := fun e => h (e.symm.trans hp)
      have e1 : decide (p.1 ≠ k) = false := by simp [hp]
      have e2 : decide (p.1 = k1) = false := by simp [hp1]
      simp only [List.filter_cons, e1, Bool.false_eq_true, if_false, List.find?_cons, e2, ih]
    · have e1 : decide (p.1 ≠ k) = true := by simp [hp]
      simp only [List.filter_cons, e1, if_true, List.find?_cons, ih]

theorem GoMap.get_set_ne {V : Type} (m : GoMap V) (k k1 : String) (v : V) (h : k1 ≠ k) :
    (m.set k v).get k1 = m.get k1 := by
  have hk : decide (k = k1) = false := by
    simp only [decide_eq_false_iff_not]
    exact fun e => h e.symm
  simp only [GoMap.get, GoMap.set]
  rw [List.find?_cons]
  simp only [hk]
  rw [find_filter_ne _ _ _ h]

theorem GoMap.len_eq_card {V : Type} (m : GoMap V) :
    m.len = (m.entries.map Prod.fst).toFinset.card := by
  rw [List.toFinset_card_of_nodup m.nodup, List.length_map]
  rfl

theorem GoMap.keys_set {V : Type} (m : GoMap V) (k : String) (v : V) :
    ((m.set k v).entries.map Prod.fst).toFinset =
      insert k (m.entries.map Prod.fst).toFinset := by
  ext x
  simp only [GoMap.set, List.map_cons, List.toFinset_cons, Finset.mem_insert, List.mem_toFinset,
    List.mem_map, List.mem_filter, ne_eq, decide_not, Bool.not_eq_true', decide_eq_false_iff_not]
  constructor
  · rintro (h | ⟨p, ⟨hp, _⟩, rfl⟩)
    · exact Or.inl h
    · exact Or.inr ⟨p, hp, rfl⟩
  · rintro (h | ⟨p, hp, rfl⟩)
    · exact Or.inl h
    · by_cases hk : p.1 = k
      · exact Or.inl hk
      · exact Or.inr ⟨p, ⟨hp, hk⟩, rfl⟩

/-- The map of users that `Stat` builds has one key for each distinct user. -/
theorem users_fold_keys (l : List String) (m : GoMap Unit) :
    ((l.foldl (fun users k => users.set k ()) m).entries.map Prod.fst).toFinset =
      (m.entries.map Prod.fst).toFinset ∪ l.toFinset := by
  induction l generalizing m with
  | nil => simp
  | cons k l ih =>
    rw [List.foldl_cons, ih, GoMap.keys_set]
    ext x
    simp only [Finset.mem_union, Finset.mem_insert, List.mem_toFinset, List.toFinset_cons]
    tauto

theorem users_fold_len (l : List String) :
    (l.foldl (fun users k => users.set k ()) (GoMap.empty : GoMap Unit)).len =
      l.toFinset.card := by
  rw [GoMap.len_eq_card, users_fold_keys]
  simp [GoMap.empty]

theorem memstorage.Stat_eq (ms : memstorage.memStorage) :
    ms.Stat = ({ URLs := ms.data.entries.length,
                 Users := (ms.data.entries.map fun p => p.2.UserID).toFinset.card }, none) := by
  unfold memstorage.memStorage.Stat
  have h := users_fold_len (ms.data.entries.map fun p => p.2.UserID)
  rw [List.foldl_map] at h
  rw [h]
  rfl

/-- The record a worker of `Delete` leaves under the key `k` after it has
handled the slugs of `l`. -/
theorem memstorage.deleteSlug_get (ms : memstorage.memStorage) (userID slug k : String) :
    (ms.deleteSlug userID slug).data.get k =
      (ms.data.get k).map fun r =>
        { r with IsDeleted := r.IsDeleted || (decide (k = slug) && decide (r.UserID = userID)) } := by
  unfold memstorage.memStorage.deleteSlug
  by_cases hk : k = slug
  · subst hk
    cases hg : ms.data.get k with
    | none => simp [hg]
    | some v =>
      by_cases hu : v.UserID = userID
      · simp only [hu, if_true, GoMap.get_set_same, Option.map_some', decide_True, Bool.and_true,
          Bool.or_true]
        subst hu
        rfl
      · simp only [hu, if_false, hg, Option.map_some', decide_False, Bool.and_false,
          Bool.or_false]
  · have e : ∀ r : memstorage.shortenedURL,
        ({ r with IsDeleted := r.IsDeleted || (decide (k = slug) && decide (r.UserID = userID)) } :
          memstorage.shortenedURL) = r := by
      intro r
      simp [hk]
    simp only [e, Option.map_id']
    cases hg : ms.data.get slug with
    | none => rfl
    | some v =>
      by_cases hu : v.UserID = userID
      · simp only [hu, if_true]
        exact GoMap.get_set_ne _ _ _ _ hk
      · simp only [hu, if_false]

theorem memstorage.Delete_get (userID k : String) (l : List String) (ms : memstorage.memStorage) :
    (l.foldl (fun m slug => m.deleteSlug userID slug) ms).data.get k =
      (ms.data.get k).map fun r =>
        { r with IsDeleted := r.IsDeleted || (decide (k ∈ l) && decide (r.UserID = userID)) } := by
  induction l generalizing ms with
  | nil =>
    simp only [List.foldl_nil, List.not_mem_nil, decide_False, Bool.false_and, Bool.or_false]
    cases ms.data.get k <;> rfl
  | cons s l ih =>
    rw [List.foldl_cons, ih, memstorage.deleteSlug_get]
    cases ms.data.get k with
    | none => rfl
    | some r =>
      simp only [Option.map_some', Option.some.injEq, List.mem_cons]
      by_cases hs : k = s <;> by_cases hl : k ∈ l <;> by_cases hu : r.UserID = userID <;>
        simp [hs, hl, hu]

theorem filestorage.getString_putString (s : String) (rest : List Nat) :
    filestorage.getString (filestorage.putString s ++ rest) = some (s, rest) := by
  have hlen : s.length = (s.data.map Char.toNat).length := by
    rw [List.length_map]
    cases s
    rfl
  have htake : ((s.data.map Char.toNat) ++ rest).take s.length = s.data.map Char.toNat := by
    rw [hlen]
    exact List.take_left _ _
  have hdrop : ((s.data.map Char.toNat) ++ rest).drop s.length = rest := by
    rw [hlen]
    exact List.drop_left _ _
  have hle : s.length ≤ ((s.data.map Char.toNat) ++ rest).length := by
    rw [List.length_append, ← hlen]
    omega
  simp only [filestorage.putString, List.cons_append, filestorage.getString, hle, if_true, htake,
    hdrop, List.map_map]
  have hid : (Char.ofNat ∘ Char.toNat) = id := by
    funext c
    simp
  rw [hid, List.map_id]

theorem filestorage.getRecord_putRecord (z : filestorage.ShortenedURL) :
    filestorage.getRecord (filestorage.putRecord z) = some z := by
  obtain ⟨slug, userID, corrID, value, raw, del⟩ := z
  simp only [filestorage.getRecord, filestorage.putRecord, filestorage.getString_putString]
  cases del <;> rfl

theorem filestorage.frameCodec_lawful : filestorage.frameCodec.Lawful := by
  refine ⟨?_, ?_, ?_⟩
  · intro z prev b rest h
    simp only [filestorage.frameCodec, Prod.mk.injEq, and_true] at h
    subst h
    have hle : (filestorage.putRecord z).length ≤ (filestorage.putRecord z ++ rest).length := by
      rw [List.length_append]
      omega
    simp only [filestorage.frameCodec, List.cons_append, hle, if_true, List.take_left,
      List.drop_left, filestorage.getRecord_putRecord]
  · intro prev
    exact ⟨prev, _, rfl, rfl⟩
  · intro prev z s rest h
    cases s with
    | nil => simp [filestorage.frameCodec] at h
    | cons n t =>
      simp only [filestorage.frameCodec] at h
      split_ifs at h with hn
      · split at h
        · simp only [Prod.mk.injEq, and_true] at h
          rw [← h.2, List.length_drop, List.length_cons]
          omega
        · simp at h
      · simp at h

theorem filestorage.marshal_length_pos (c : filestorage.Codec) (hc : c.Lawful)
    (z : filestorage.ShortenedURL) (b : List Nat) (h : c.MarshalMsg z = (b, none)) :
    0 < b.length := by
  have h1 := hc.roundTrip z z b [] h
  have h2 := hc.consumes z z (b ++ []) [] h1
  simp at h2
  omega

theorem filestorage.logOf_length (c : filestorage.Codec) (hc : c.Lawful)
    (rs : List filestorage.ShortenedURL) (l : List Nat) (h : filestorage.logOf c rs = some l) :
    rs.length ≤ l.length := by
  induction rs generalizing l with
  | nil => simp
  | cons z rs ih =>
    unfold filestorage.logOf at h
    split at h
    · rename_i b l1 hm hl
      simp only [Option.some.injEq] at h
      subst h
      have := filestorage.marshal_length_pos c hc z b hm
      have := ih l1 hl
      rw [List.length_append, List.length_cons]
      omega
    · cases h

/-- On a log that holds the records `rs`, the decoding loop appends them in
order to the slice and stops at the end of the bytes on an error that wraps
`io.EOF`. -/
theorem filestorage.listLoop_logOf (c : filestorage.Codec) (hc : c.Lawful)
    (rs : List filestorage.ShortenedURL) (l : List Nat) (fuel : Nat)
    (prev : filestorage.ShortenedURL) (acc : Slice filestorage.ShortenedURL)
    (h : filestorage.logOf c rs = some l) (hf : rs.length < fuel) :
    ∃ e, filestorage.listLoop c fuel prev acc l =
        Run.done ((rs.foldl Slice.append acc, e), []) ∧
      errorsUnwrap e = some GoError.EOF := by
  induction rs generalizing l fuel prev acc with
  | nil =>
    simp only [filestorage.logOf, Option.some.injEq] at h
    subst h
    obtain ⟨z, e, hd, he⟩ := hc.endOfFile prev
    cases fuel with
    | zero => omega
    | succ fuel =>
      refine ⟨e, ?_, he⟩
      simp only [filestorage.listLoop, hd, List.foldl_nil]
  | cons z rs ih =>
    unfold filestorage.logOf at h
    split at h
    · rename_i b l1 hm hl
      simp only [Option.some.injEq] at h
      subst h
      cases fuel with
      | zero => omega
      | succ fuel =>
        obtain ⟨e, hloop, he⟩ := ih l1 fuel z (acc.append z) hl (by simpa using hf)
        refine ⟨e, ?_, he⟩
        simp only [filestorage.listLoop, hc.roundTrip z prev b l1 hm, List.foldl_cons, hloop]
    · cases h

theorem Slice.elems_foldl_append {α : Type} (rs : List α) (acc : Slice α) :
    (rs.foldl Slice.append acc).elems = acc.elems ++ rs := by
  induction rs generalizing acc with
  | nil => simp
  | cons r rs ih =>
    rw [List.foldl_cons, ih]
    show (acc.elems ++ [r]) ++ rs = acc.elems ++ r :: rs
    simp

/-- On a log that holds the records `rs`, with the reader at offset 0,
`List` returns the records in write order; its error is the error of the
seek, and after a seek that succeeds the reader is back at offset 0. -/
theorem filestorage.List_logOf (c : filestorage.Codec) (hc : c.Lawful)
    (rs : List filestorage.ShortenedURL) (l : List Nat) (seek : Option GoError)
    (h : filestorage.logOf c rs = some l) :
    ∃ records : Slice filestorage.ShortenedURL, records.elems = rs ∧
      filestorage.msgpReader.List c l 0 seek =
        Run.done ((records, seek), if seek = none then 0 else l.length) := by
  have hlen := filestorage.logOf_length c hc rs l h
  obtain ⟨e, hloop, he⟩ := filestorage.listLoop_logOf c hc rs l (l.length + 1)
    filestorage.ShortenedURL.zero none h (by omega)
  refine ⟨rs.foldl Slice.append none, ?_, ?_⟩
  · rw [Slice.elems_foldl_append]
    rfl
  · simp only [filestorage.msgpReader.List, List.drop_zero, hloop, he, ne_eq, not_true_eq_false,
      if_false]
    cases seek <;> simp

/-- The two loops of the file store's `CollectByUser` pick the records of the
user, in order. -/
theorem filestorage.collectIdxs_getD (userID : String)
    (pre rs : List filestorage.ShortenedURL) :
    ((filestorage.collectIdxs userID pre.length rs).map fun idx =>
        (pre ++ rs).getD idx filestorage.ShortenedURL.zero) =
      rs.filter fun r => decide (r.UserID = userID) := by
  induction rs generalizing pre with
  | nil => rfl
  | cons r rs ih =>
    have e : pre ++ r :: rs = (pre ++ [r]) ++ rs := by simp
    have hl : (pre ++ [r]).length = pre.length + 1 := by simp
    have ih1 := ih (pre ++ [r])
    rw [hl, ← e] at ih1
    unfold filestorage.collectIdxs
    by_cases hu : r.UserID = userID
    · have hget : (pre ++ r :: rs).getD pre.length filestorage.ShortenedURL.zero = r := by
        rw [List.getD_eq_getElem?_getD, List.getElem?_append_right (Nat.le_refl _)]
        simp
      simp only [hu, if_true, List.map_cons, hget, ih1, List.filter_cons, decide_True]
    · simp only [hu, if_false, ih1, List.filter_cons, decide_False, Bool.false_eq_true]

/-- Saving records with pairwise distinct slugs and pairwise distinct raw URLs
into a memory store that holds the records `done` succeeds and stores them
all. -/
theorem memstorage.seed_entries (rs done : List ShortenedURL) (ms : memstorage.memStorage)
    (hms : ms.data.entries = done.reverse.map fun e => (e.Slug, memstorage.newShortenedURL e))
    (hslug : ((done ++ rs).map fun e => e.Slug).Nodup)
    (hraw : ((done ++ rs).map fun e => e.Raw).Nodup) :
    ∃ ms1, memstorage.seed ms rs = some ms1 ∧
      ms1.data.entries =
        (done ++ rs).reverse.map fun e => (e.Slug, memstorage.newShortenedURL e) := by
  induction rs generalizing done ms with
  | nil => exact ⟨ms, rfl, by simpa using hms⟩
  | cons e rs ih =>
    have hfresh : (ms.data.entries.any fun p =>
        decide (p.2.Raw = e.Raw) && decide (p.2.UserID = e.UserID)) = false := by
      rw [Bool.eq_false_iff]
      intro h
      simp only [hms, List.any_eq_true, List.mem_map, List.mem_reverse, Bool.and_eq_true,
        decide_eq_true_eq] at h
      obtain ⟨p, ⟨d, hd, rfl⟩, hr, _⟩ := h
      simp only [List.map_append, List.map_cons, List.nodup_append, List.nodup_cons] at hraw
      exact hraw.2.2 (List.mem_map.mpr ⟨d, hd, rfl⟩) (List.mem_cons.mpr (Or.inl hr))
    have hfilter : (ms.data.entries.filter fun p => decide (p.1 ≠ e.Slug)) = ms.data.entries := by
      rw [List.filter_eq_self]
      intro p hp
      simp only [hms, List.mem_map, List.mem_reverse] at hp
      obtain ⟨d, hd, rfl⟩ := hp
      simp only [List.map_append, List.map_cons, List.nodup_append, List.nodup_cons] at hslug
      simp only [ne_eq, decide_not, Bool.not_eq_true', decide_eq_false_iff_not]
      intro hs
      exact hslug.2.2 (List.mem_map.mpr ⟨d, hd, rfl⟩) (List.mem_cons.mpr (Or.inl hs))
    have hq : done ++ e :: rs = (done ++ [e]) ++ rs := by simp
    rw [hq] at hslug hraw
    obtain ⟨ms1, h1, h2⟩ := ih (done ++ [e])
      { data := ms.data.set e.Slug (memstorage.newShortenedURL e) }
      (by
        show (e.Slug, memstorage.newShortenedURL e) ::
          (ms.data.entries.filter fun p => decide (p.1 ≠ e.Slug)) = _
        rw [hfilter, hms]
        simp) hslug hraw
    refine ⟨ms1, ?_, by rw [hq]; exact h2⟩
    unfold memstorage.seed
    rw [memstorage.Save_of_fresh ms e hfresh]
    exact h1

theorem filestorage.seed_logOf (c : filestorage.Codec) (rs : List Shortener.ShortenedURL)
    (f l : List Nat) (pos : Nat)
    (hl : filestorage.logOf c (rs.map filestorage.newShortenedURL) = some l) :
    filestorage.seed c ⟨f, pos, false⟩ rs = some ⟨f ++ l, pos, false⟩ := by
  induction rs generalizing f l with
  | nil =>
    simp only [List.map_nil, filestorage.logOf, Option.some.injEq] at hl
    subst hl
    simp [filestorage.seed]
  | cons e rs ih =>
    simp only [List.map_cons] at hl
    unfold filestorage.logOf at hl
    split at hl
    · rename_i b l1 hm hl1
      simp only [Option.some.injEq] at hl
      subst hl
      simp only [filestorage.seed, filestorage.fileStorage.Save, Bool.false_eq_true, if_false,
        filestorage.msgpWriter.Write, hm]
      rw [ih (f ++ b) l1 hl1, List.append_assoc]
    · cases hl

theorem filestorage.Stat_logOf (c : filestorage.Codec) (hc : c.Lawful)
    (rs : List filestorage.ShortenedURL) (l : List Nat)
    (hl : filestorage.logOf c rs = some l) :
    filestorage.fileStorage.Stat c ⟨l, 0, false⟩ none =
      Run.done (({ URLs := rs.length, Users := (rs.map fun r => r.UserID).toFinset.card }, none),
        ⟨l, 0, false⟩) := by
  obtain ⟨records, hrec, hlist⟩ := filestorage.List_logOf c hc rs l none hl
  have h := users_fold_len (rs.map fun r => r.UserID)
  rw [List.foldl_map] at h
  simp only [filestorage.fileStorage.Stat, Bool.false_eq_true, if_false, hlist, if_true, hrec,
    Slice.len, h]

theorem filestorage.logOf_append (c : filestorage.Codec)
    (rs : List filestorage.ShortenedURL) (z : filestorage.ShortenedURL) (l b : List Nat)
    (hl : filestorage.logOf c rs = some l) (hm : c.MarshalMsg z = (b, none)) :
    filestorage.logOf c (rs ++ [z]) = some (l ++ b) := by
  induction rs generalizing l with
  | nil =>
    simp only [filestorage.logOf, Option.some.injEq] at hl
    subst hl
    simp [filestorage.logOf, hm]
  | cons r rs ih =>
    unfold filestorage.logOf at hl
    split at hl
    · rename_i b1 l1 hm1 hl1
      simp only [Option.some.injEq] at hl
      subst hl
      simp only [List.cons_append, filestorage.logOf, List.append_eq, hm1, ih l1 hl1,
        List.append_assoc]
    · cases hl

theorem filestorage.writes_logOf (c : filestorage.Codec)
    (zs : List filestorage.ShortenedURL) (f file : List Nat)
    (h : filestorage.writes c f zs = some file) :
    ∃ l, filestorage.logOf c zs = some l ∧ file = f ++ l := by
  induction zs generalizing f with
  | nil =>
    simp only [filestorage.writes, Option.some.injEq] at h
    exact ⟨[], rfl, by simp [h]⟩
  | cons z zs ih =>
    unfold filestorage.writes filestorage.msgpWriter.Write at h
    cases hm : c.MarshalMsg z with
    | mk b err =>
      cases err with
      | some e => simp [hm] at h
      | none =>
        simp only [hm] at h
        obtain ⟨l, hl, hfile⟩ := ih (f ++ b) h
        exact ⟨b ++ l, by simp [filestorage.logOf, hm, hl], by simp [hfile]⟩

/-- In `Batch`, when the writes of the records `pre` succeed and the write of
the next record fails, the loop ends there with the records of `pre`
appended. -/
theorem filestorage.writeAll_fail (c : filestorage.Codec) (werrs : Nat → Option GoError)
    (pre post : List Shortener.ShortenedURL) (bad : Shortener.ShortenedURL) (i : Nat)
    (f l : List Nat)
    (hl : filestorage.logOf c (pre.map filestorage.newShortenedURL) = some l)
    (hpre : ∀ j, j < pre.length → werrs (i + j) = none)
    (hbad : (c.MarshalMsg (filestorage.newShortenedURL bad)).2 ≠ none ∨
      werrs (i + pre.length) ≠ none) :
    filestorage.writeAll c werrs i f (pre ++ bad :: post) = (f ++ l, true) := by
  induction pre generalizing i f l with
  | nil =>
    simp only [List.map_nil, filestorage.logOf, Option.some.injEq] at hl
    subst hl
    simp only [List.nil_append, filestorage.writeAll, filestorage.msgpWriter.Write,
      List.append_nil]
    cases hm : c.MarshalMsg (filestorage.newShortenedURL bad) with
    | mk b err =>
      cases err with
      | some e => rfl
      | none =>
        rw [hm] at hbad
        simp only [ne_eq, not_true_eq_false, false_or, List.length_nil, Nat.add_zero] at hbad
        cases hw : werrs i with
        | none => exact absurd hw hbad
        | some e => rfl
  | cons e pre ih =>
    simp only [List.map_cons] at hl
    unfold filestorage.logOf at hl
    split at hl
    · rename_i b l1 hm hl1
      simp only [Option.some.injEq] at hl
      subst hl
      have h0 : werrs i = none := by simpa using hpre 0 (by simp)
      have hrec := ih (i + 1) (f ++ b) l1 hl1
        (fun j hj => by
          have := hpre (j + 1) (by simpa using hj)
          rwa [show i + 1 + j = i + (j + 1) by omega])
        (by rwa [show i + 1 + pre.length = i + (e :: pre).length by simp; omega])
      simp only [List.cons_append, filestorage.writeAll, filestorage.msgpWriter.Write, hm, h0,
        List.append_eq, hrec, List.append_assoc]
    · cases hl

theorem filestorage.prefix_Write (c : filestorage.Codec) (file : List Nat)
    (werr : Option GoError) (z : filestorage.ShortenedURL) :
    file <+: (filestorage.msgpWriter.Write c file werr z).2 := by
  unfold filestorage.msgpWriter.Write
  split
  · exact List.prefix_refl _
  · split
    · exact List.prefix_refl _
    · exact List.prefix_append _ _

theorem filestorage.prefix_writeAll (c : filestorage.Codec) (werrs : Nat → Option GoError)
    (rs : List Shortener.ShortenedURL) (i : Nat) (file : List Nat) :
    file <+: (filestorage.writeAll c werrs i file rs).1 := by
  induction rs generalizing i file with
  | nil => exact List.prefix_refl _
  | cons r rs ih =>
    have hp := filestorage.prefix_Write c file (werrs i) (filestorage.newShortenedURL r)
    unfold filestorage.writeAll
    split
    · rename_i e f1 hw
      rw [hw] at hp
      exact hp
    · rename_i f1 hw
      rw [hw] at hp
      exact hp.trans (ih (i + 1) f1)

theorem filestorage.seed_inv (c : filestorage.Codec) (rs : List Shortener.ShortenedURL)
    (f : List Nat) (pos : Nat) (fs : filestorage.fileStorage)
    (h : filestorage.seed c ⟨f, pos, false⟩ rs = some fs) :
    ∃ l, filestorage.logOf c (rs.map filestorage.newShortenedURL) = some l ∧
      fs = ⟨f ++ l, pos, false⟩ := by
  induction rs generalizing f with
  | nil =>
    simp only [filestorage.seed, Option.some.injEq] at h
    exact ⟨[], rfl, by simp [← h]⟩
  | cons e rs ih =>
    simp only [filestorage.seed, filestorage.fileStorage.Save, Bool.false_eq_true, if_false,
      filestorage.msgpWriter.Write] at h
    cases hm : c.MarshalMsg (filestorage.newShortenedURL e) with
    | mk b err =>
      rw [hm] at h
      cases err with
      | some x => simp at h
      | none =>
        simp only at h
        obtain ⟨l, hl, hfs⟩ := ih (f ++ b) h
        exact ⟨b ++ l, by simp [filestorage.logOf, hm, hl], by simp [hfs]⟩

theorem base62Loop_getElem (n base i : Nat) (h : i < n) :
    (base62Loop n base)[i]? = base62Alphabet[(base / 62 ^ (i + 1)) % 62]? := by
  induction n generalizing base i with
  | zero => omega
  | succ n ih =>
    have hlen : base62Len = 62 := by decide
    cases i with
    | zero =>
      simp only [base62Loop, List.getElem?_cons_zero, hlen, Nat.zero_add, Nat.pow_one]
      rw [List.getElem?_eq_getElem (by
        have : base62Alphabet.length = 62 := by decide
        rw [this]
        exact Nat.mod_lt _ (by decide))]
      rfl
    | succ i =>
      simp only [base62Loop, List.getElem?_cons_succ, hlen]
      rw [ih (base / 62) i (by omega), Nat.div_div_eq_div_mul, ← Nat.pow_succ']

theorem base62Loop_div (n base base1 : Nat) (h : base / 62 = base1 / 62) :
    base62Loop n base = base62Loop n base1 := by
  cases n with
  | zero => rfl
  | succ n =>
    have hlen : base62Len = 62 := by decide
    simp only [base62Loop, hlen, h]

/-- With a lawful codec the decoding loop ends on every byte sequence. -/
theorem filestorage.listLoop_total (c : filestorage.Codec) (hc : c.Lawful) (fuel : Nat)
    (prev : filestorage.ShortenedURL) (acc : Slice filestorage.ShortenedURL) (s : List Nat)
    (h : s.length < fuel) :
    ∃ records err rest, filestorage.listLoop c fuel prev acc s =
      Run.done ((records, err), rest) := by
  induction fuel generalizing prev acc s with
  | zero => omega
  | succ fuel ih =>
    unfold filestorage.listLoop
    cases hd : c.DecodeMsg prev s with
    | mk res rest =>
      obtain ⟨z, e⟩ := res
      cases e with
      | none =>
        have := hc.consumes prev z s rest hd
        exact ih z (acc.append z) rest (by omega)
      | some err => exact ⟨acc, err, rest, rfl⟩

theorem filestorage.decodeAll_total (c : filestorage.Codec) (hc : c.Lawful) (file : List Nat)
    (pos : Nat) :
    ∃ records err rest, filestorage.decodeAll c file pos = Run.done ((records, err), rest) :=
  filestorage.listLoop_total c hc _ _ _ _ (Nat.lt_succ_self _)

/-- What `List` returns once the decoding loop has ended. -/
theorem filestorage.List_of_decodeAll (c : filestorage.Codec) (file : List Nat) (pos : Nat)
    (seek : Option GoError) (records : Slice filestorage.ShortenedURL) (err : GoError)
    (rest : List Nat)
    (h : filestorage.decodeAll c file pos = Run.done ((records, err), rest)) :
    filestorage.msgpReader.List c file pos seek =
      Run.done ((if errorsUnwrap err ≠ some GoError.EOF then none else records, seek),
        if seek = none then 0 else file.length - rest.length) := by
  unfold filestorage.decodeAll at h
  unfold filestorage.msgpReader.List
  rw [h]
  cases seek <;> simp

/-- A `Save` keeps the pairs of `Raw` and `UserID` distinct. -/
theorem memstorage.Save_UniquePairs (ms : memstorage.memStorage) (e : ShortenedURL)
    (h : ms.UniquePairs) : (ms.Save e).2.UniquePairs := by
  cases hany : (ms.data.entries.any fun p =>
      decide (p.2.Raw = e.Raw) && decide (p.2.UserID = e.UserID)) with
  | true =>
    rw [memstorage.Save_of_present ms e hany]
    exact h
  | false =>
    rw [memstorage.Save_of_fresh ms e hany]
    have hfresh : ∀ slug r, ms.data.get slug = some r → r.Raw = e.Raw → r.UserID = e.UserID →
        False := by
      intro slug r hget h1 h2
      have := (memstorage.Save_any_iff ms e).2 ⟨slug, r, hget, h1, h2⟩
      rw [hany] at this
      cases this
    intro s1 s2 r1 r2 h1 h2 hraw huser
    by_cases e1 : s1 = e.Slug
    · by_cases e2 : s2 = e.Slug
      · rw [e1, e2]
      · exfalso
        subst e1
        change (ms.data.set e.Slug (memstorage.newShortenedURL e)).get e.Slug = some r1 at h1
        change (ms.data.set e.Slug (memstorage.newShortenedURL e)).get s2 = some r2 at h2
        rw [GoMap.get_set_same] at h1
        rw [GoMap.get_set_ne _ _ _ _ e2] at h2
        cases h1
        exact hfresh s2 r2 h2 hraw.symm huser.symm
    · change (ms.data.set e.Slug (memstorage.newShortenedURL e)).get s1 = some r1 at h1
      rw [GoMap.get_set_ne _ _ _ _ e1] at h1
      by_cases e2 : s2 = e.Slug
      · exfalso
        subst e2
        change (ms.data.set e.Slug (memstorage.newShortenedURL e)).get e.Slug = some r2 at h2
        rw [GoMap.get_set_same] at h2
        cases h2
        exact hfresh s1 r1 h1 hraw huser
      · change (ms.data.set e.Slug (memstorage.newShortenedURL e)).get s2 = some r2 at h2
        rw [GoMap.get_set_ne _ _ _ _ e2] at h2
        exact h s1 s2 r1 r2 h1 h2 hraw huser

/-- A `Delete` keeps the pairs of `Raw` and `UserID` distinct. -/
theorem memstorage.Delete_UniquePairs (ms : memstorage.memStorage) (userID : String)
    (sched : List String) (h : ms.UniquePairs) : (ms.Delete userID sched).2.UniquePairs := by
  intro s1 s2 r1 r2 h1 h2 hraw huser
  change (sched.foldl (fun m slug => m.deleteSlug userID slug) ms).data.get s1 = some r1 at h1
  change (sched.foldl (fun m slug => m.deleteSlug userID slug) ms).data.get s2 = some r2 at h2
  rw [memstorage.Delete_get] at h1 h2
  cases g1 : ms.data.get s1 with
  | none => rw [g1] at h1; cases h1
  | some q1 =>
    cases g2 : ms.data.get s2 with
    | none => rw [g2] at h2; cases h2
    | some q2 =>
      rw [g1] at h1
      rw [g2] at h2
      simp only [Option.map_some', Option.some.injEq] at h1 h2
      subst h1
      subst h2
      exact h s1 s2 q1 q2 g1 g2 hraw huser

/-- The loop of `Batch` leaves alone every slug that is not in the batch. -/
theorem memstorage.Batch_get_ne (l : List ShortenedURL) (ms : memstorage.memStorage)
    (slug : String) (h : ∀ e ∈ l, e.Slug ≠ slug) :
    (l.foldl (fun (m : memstorage.memStorage) v =>
      { data := m.data.set v.Slug (memstorage.newShortenedURL v) }) ms).data.get slug =
      ms.data.get slug := by
  induction l generalizing ms with
  | nil => rfl
  | cons e l ih =>
    rw [List.foldl_cons, ih _ (fun x hx => h x (List.mem_cons_of_mem _ hx))]
    exact GoMap.get_set_ne _ _ _ _ (fun heq => h e (List.mem_cons_self _ _) heq.symm)

/-- The loop of `Batch` removes no slug. -/
theorem memstorage.Batch_get_some (l : List ShortenedURL) (ms : memstorage.memStorage)
    (slug : String) (r : memstorage.shortenedURL) (h : ms.data.get slug = some r) :
    ∃ r1, (l.foldl (fun (m : memstorage.memStorage) v =>
      { data := m.data.set v.Slug (memstorage.newShortenedURL v) }) ms).data.get slug =
      some r1 := by
  induction l generalizing ms r with
  | nil => exact ⟨r, h⟩
  | cons e l ih =>
    rw [List.foldl_cons]
    by_cases hs : slug = e.Slug
    · exact ih _ (memstorage.newShortenedURL e) (by rw [hs]; exact GoMap.get_set_same _ _ _)
    · exact ih _ r (by
        change (ms.data.set e.Slug (memstorage.newShortenedURL e)).get slug = some r
        rw [GoMap.get_set_ne _ _ _ _ hs]
        exact h)

/-- No call of a writing method removes a slug from the memory store. -/
theorem memstorage.step_get_some (ms : memstorage.memStorage) (op : memstorage.Op)
    (slug : String) (r : memstorage.shortenedURL) (h : ms.data.get slug = some r) :
    ∃ r1, (ms.step op).data.get slug = some r1 := by
  cases op with
  | Save e =>
    cases hany : (ms.data.entries.any fun p =>
        decide (p.2.Raw = e.Raw) && decide (p.2.UserID = e.UserID)) with
    | true =>
      refine ⟨r, ?_⟩
      simp only [memstorage.memStorage.step]
      rw [memstorage.Save_of_present ms e hany]
      exact h
    | false =>
      simp only [memstorage.memStorage.step]
      rw [memstorage.Save_of_fresh ms e hany]
      by_cases hs : slug = e.Slug
      · exact ⟨memstorage.newShortenedURL e, by rw [hs]; exact GoMap.get_set_same _ _ _⟩
      · exact ⟨r, by
          change (ms.data.set e.Slug (memstorage.newShortenedURL e)).get slug = some r
          rw [GoMap.get_set_ne _ _ _ _ hs]
          exact h⟩
  | Batch es => exact memstorage.Batch_get_some es.elems ms slug r h
  | Delete userID slugs sched =>
    refine ⟨{ r with IsDeleted :=
      r.IsDeleted || (decide (slug ∈ sched) && decide (r.UserID = userID)) }, ?_⟩
    change (sched.foldl (fun m slug => m.deleteSlug userID slug) ms).data.get slug = _
    rw [memstorage.Delete_get, h]
    rfl

theorem memstorage.run_get_some (ops : List memstorage.Op) (ms : memstorage.memStorage)
    (slug : String) (r : memstorage.shortenedURL) (h : ms.data.get slug = some r) :
    ∃ r1, (ms.run ops).data.get slug = some r1 := by
  induction ops generalizing ms r with
  | nil => exact ⟨r, h⟩
  | cons op ops ih =>
    obtain ⟨r1, h1⟩ := memstorage.step_get_some ms op slug r h
    exact ih (ms.step op) r1 h1

/-- On a host that does not start with a bracket the two readings of "IP
literal" agree. -/
theorem isIPLiteral_of_no_bracket (host : String) (h : host.data.head? ≠ some '[') :
    isIPLiteral host = ParseIP host := by
  unfold isIPLiteral
  split
  · rename_i t ht
    rw [ht] at h
    exact absurd rfl h
  · simp

/-! ## The claims -/

/-- C1: `memStorage.Save` returns the storage sentinel `ErrUniqueViolation`
exactly when some stored record has the candidate's `Raw` and `UserID`; then
the store is unchanged; otherwise it returns nil and the store holds the
candidate's record under the candidate's slug. -/
theorem memStorage_Save_unique (ms : memstorage.memStorage) (e : ShortenedURL) :
    ((ms.Save e).1 = some GoError.storageUniqueViolation ↔
      ∃ slug r, ms.data.get slug = some r ∧ r.Raw = e.Raw ∧ r.UserID = e.UserID) ∧
    ((ms.Save e).1 = some GoError.storageUniqueViolation → (ms.Save e).2 = ms) ∧
    ((ms.Save e).1 ≠ some GoError.storageUniqueViolation →
      (ms.Save e).1 = none ∧
      (ms.Save e).2.data.get e.Slug = some (memstorage.newShortenedURL e)) := by
  rw [← memstorage.Save_any_iff]
  unfold memstorage.memStorage.Save
  split_ifs with h
  · simp [h]
  · simp [h, GoMap.get_set_same]

/-- Instance of C1 on the empty store and on the store it yields. -/
theorem memStorage_Save_unique_witness :
    ((memstorage.MemStorage.Save
        ⟨"1", "1", "http://demo.com", "slug1", "http://127.0.0.1/slug1", false⟩).1 = none ∧
      (memstorage.MemStorage.Save
        ⟨"1", "1", "http://demo.com", "slug1", "http://127.0.0.1/slug1", false⟩).2.data.get "slug1" =
        some (memstorage.newShortenedURL
          ⟨"1", "1", "http://demo.com", "slug1", "http://127.0.0.1/slug1", false⟩)) ∧
    ((memstorage.MemStorage.Save
        ⟨"1", "1", "http://demo.com", "slug1", "http://127.0.0.1/slug1", false⟩).2.Save
        ⟨"1", "2", "http://demo.com", "slug2", "http://127.0.0.1/slug2", false⟩).2 =
      (memstorage.MemStorage.Save
        ⟨"1", "1", "http://demo.com", "slug1", "http://127.0.0.1/slug1", false⟩).2 :=
  ⟨(memStorage_Save_unique memstorage.MemStorage
      ⟨"1", "1", "http://demo.com", "slug1", "http://127.0.0.1/slug1", false⟩).2.2 (by decide),
   (memStorage_Save_unique
      (memstorage.MemStorage.Save
        ⟨"1", "1", "http://demo.com", "slug1", "http://127.0.0.1/slug1", false⟩).2
      ⟨"1", "2", "http://demo.com", "slug2", "http://127.0.0.1/slug2", false⟩).2.1 (by decide)⟩

/-- C2: on a shortener backed by the memory store, for a URL that passes the
checks and a store without a record of its `(Raw, UserID)` pair, the first
`Short` succeeds and the second, with the same URL, returns
`ErrUniqueViolation`, whatever the two draws are. -/
theorem Short_twice_unique (baseURL : String) (ms : memstorage.memStorage) (url : URL)
    (v1 v2 : Nat)
    (hvalid : validCreation url.UserID url.Raw baseURL = true)
    (hfresh : ∀ slug r, ms.data.get slug = some r → ¬(r.Raw = url.Raw ∧ r.UserID = url.UserID)) :
    ∃ value ms1,
      shortener.Short ⟨memstorage.saver, baseURL⟩ ms (some v1) url = some ((value, none), ms1) ∧
      shortener.Short ⟨memstorage.saver, baseURL⟩ ms1 (some v2) url =
        some (("", some GoError.ErrUniqueViolation), ms1) := by
  have hno : (ms.data.entries.any fun p =>
      decide (p.2.Raw = url.Raw) && decide (p.2.UserID = url.UserID)) = false := by
    rw [Bool.eq_false_iff]
    intro h
    obtain ⟨slug, r, hget, hr, hu⟩ :=
      (memstorage.Save_any_iff ms ⟨url.UserID, "", url.Raw, "", "", false⟩).mp h
    exact hfresh slug r hget ⟨hr, hu⟩
  refine ⟨baseURL ++ "/" ++ String.mk (base62Loop 7 (v1 % 2 ^ 64)),
    { data := ms.data.set (String.mk (base62Loop 7 (v1 % 2 ^ 64)))
        (memstorage.newShortenedURL
          { UserID := url.UserID, CorrID := url.CorrID, Raw := url.Raw,
            Slug := String.mk (base62Loop 7 (v1 % 2 ^ 64)),
            Value := baseURL ++ "/" ++ String.mk (base62Loop 7 (v1 % 2 ^ 64)),
            IsDeleted := false }) }, ?_, ?_⟩
  · rw [Short_of_valid _ _ _ v1 hvalid]
    simp only [memstorage.saver]
    rw [memstorage.Save_of_fresh _ _ hno]
  · rw [Short_of_valid _ _ _ v2 hvalid]
    simp only [memstorage.saver]
    rw [memstorage.Save_of_present]
    · rfl
    · simp [GoMap.set, memstorage.newShortenedURL]

/-- Instance of C2: the scenario URL shortened twice on the empty store. -/
theorem Short_twice_unique_witness :
    validCreation "u1" "http://example.com" "http://localhost:8080" = true ∧
    ∃ value ms1,
      shortener.Short ⟨memstorage.saver, "http://localhost:8080"⟩ memstorage.MemStorage (some 5)
        ⟨"u1", "", "http://example.com"⟩ = some ((value, none), ms1) ∧
      shortener.Short ⟨memstorage.saver, "http://localhost:8080"⟩ ms1 (some 9)
        ⟨"u1", "", "http://example.com"⟩ = some (("", some GoError.ErrUniqueViolation), ms1) :=
  ⟨by decide,
   Short_twice_unique "http://localhost:8080" memstorage.MemStorage
    ⟨"u1", "", "http://example.com"⟩ 5 9 (by decide)
    (fun slug r h => by simp [memstorage.MemStorage, GoMap.get, GoMap.empty] at h)⟩

/-- C3: `base62` returns the zero-size error when `size` is 0 whatever the
draw; with a successful draw it returns an error exactly when `size` is 0; and
for a positive `size` it returns a string of exactly `size` characters, all
from the 62-symbol alphabet. -/
theorem base62_spec (size : Int) (draw : Option Nat) (v : Nat) :
    (size = 0 → base62 size draw = some ("", some (GoError.adhoc "zero size"))) ∧
    ((∃ s err, base62 size (some v) = some (s, some err)) ↔ size = 0) ∧
    (0 < size → ∃ s, base62 size (some v) = some (s, none) ∧ (s.length : Int) = size ∧
      ∀ c ∈ s.data, c ∈ base62Alphabet) ∧
    base62Alphabet.length = 62 := by
  refine ⟨?_, ?_, ?_, by decide⟩
  · intro h
    simp [base62, h]
  · constructor
    · rintro ⟨s, err, h⟩
      by_contra h0
      unfold base62 at h
      rw [if_neg h0] at h
      split_ifs at h
      cases h
    · intro h
      exact ⟨"", GoError.adhoc "zero size", by simp [base62, h]⟩
  · intro hpos
    refine ⟨String.mk (base62Loop size.toNat (v % 2 ^ 64)), ?_, ?_, ?_⟩
    · unfold base62
      rw [if_neg (by omega), if_neg (by omega)]
    · simp only [String.length, base62Loop_length]
      omega
    · exact base62Loop_mem _ _

/-- Instance of C3 at the slug length 7 the service uses. -/
theorem base62_spec_witness :
    ∃ s, base62 7 (some 12345678901234567) = some (s, none) ∧ (s.length : Int) = 7 ∧
      ∀ c ∈ s.data, c ∈ base62Alphabet :=
  (base62_spec 7 none 12345678901234567).2.2.1 (by decide)

/-- C4, evaluated: the rule says `shortenURL` succeeds exactly when `userID`
is not empty, `rawURI` is not empty and parses as an absolute URI whose host is
a valid IP literal or holds a `.`, and `baseURL` is not empty.  The code
follows the rule in one direction, and in the other for every host that does
not start with a bracket; in every case it returns either an entity or an
error with the empty entity.  For `http://[::1]/query` every condition of the
rule holds and `shortenURL` returns an error: the code gives `uri.Host`, with
its brackets, to `net.ParseIP`. -/
theorem shortenURL_iff_breaks_on_bracketed_IPv6 (userID corrID rawURI baseURL : String)
    (v : Nat) :
    ((∃ su, shortenURL userID corrID rawURI baseURL (some v) = some (su, none)) →
      (userID ≠ "" ∧ rawURI ≠ "" ∧
        (∃ uri, ParseRequestURI rawURI = (some uri, none) ∧ uri.Scheme ≠ "" ∧
          (isIPLiteral uri.Host = true ∨ '.' ∈ uri.Host.data)) ∧
        baseURL ≠ "")) ∧
    ((userID ≠ "" ∧ rawURI ≠ "" ∧
        (∃ uri, ParseRequestURI rawURI = (some uri, none) ∧ uri.Scheme ≠ "" ∧
          uri.Host.data.head? ≠ some '[' ∧
          (isIPLiteral uri.Host = true ∨ '.' ∈ uri.Host.data)) ∧
        baseURL ≠ "") →
      ∃ su, shortenURL userID corrID rawURI baseURL (some v) = some (su, none)) ∧
    ((∃ su, shortenURL userID corrID rawURI baseURL (some v) = some (su, none)) ∨
      (∃ err, shortenURL userID corrID rawURI baseURL (some v) =
          some (shortenedURL.zero, some err) ∧ shortenedURL.zero.Empty = true)) ∧
    (("1" : String) ≠ "" ∧ ("http://[::1]/query" : String) ≠ "" ∧
      (∃ uri, ParseRequestURI "http://[::1]/query" = (some uri, none) ∧ uri.Scheme = "http" ∧
        uri.Host = "[::1]" ∧ isIPLiteral uri.Host = true) ∧
      ("http://localhost:8080" : String) ≠ "" ∧
      shortenURL "1" "1" "http://[::1]/query" "http://localhost:8080" (some v) =
        some (shortenedURL.zero, some (GoError.adhoc "failed to parse URI"))) := by
  refine ⟨?_, ?_, ?_, ?_⟩
  · rintro ⟨su, hsu⟩
    cases hv : validCreation userID rawURI baseURL with
    | false =>
      obtain ⟨err, h⟩ := shortenURL_of_invalid userID corrID rawURI baseURL (some v) hv
      rw [h] at hsu
      cases hsu
    | true =>
      obtain ⟨h1, h2, ⟨uri, hp, hs, hh⟩, h4⟩ := (validCreation_iff userID rawURI baseURL).1 hv
      refine ⟨h1, h2, ⟨uri, hp, hs, ?_⟩, h4⟩
      rcases hh with hh | hh
      · left
        unfold isIPLiteral
        rw [hh]
        rfl
      · exact Or.inr hh
  · rintro ⟨h1, h2, ⟨uri, hp, hs, hb, hh⟩, h4⟩
    rw [isIPLiteral_of_no_bracket uri.Host hb] at hh
    have hv : validCreation userID rawURI baseURL = true :=
      (validCreation_iff userID rawURI baseURL).2 ⟨h1, h2, ⟨uri, hp, hs, hh⟩, h4⟩
    exact ⟨_, shortenURL_of_valid userID corrID rawURI baseURL v hv⟩
  · cases hv : validCreation userID rawURI baseURL with
    | true => exact Or.inl ⟨_, shortenURL_of_valid userID corrID rawURI baseURL v hv⟩
    | false =>
      obtain ⟨err, h⟩ := shortenURL_of_invalid userID corrID rawURI baseURL (some v) hv
      exact Or.inr ⟨err, h, by decide⟩
  · exact ⟨by decide, by decide, ⟨⟨"http", "", "[::1]"⟩, by decide, rfl, rfl, by decide⟩,
      by decide, rfl⟩

/-- C5, evaluated at a bracketed IPv6 host: `url.ParseRequestURI` leaves the
brackets in `Host`, `net.ParseIP` rejects the bracketed text, the host holds no
`.`, so `shortenURL` fails and `Short` returns `ErrInvalidCreation` without
calling the backend; the IPv4 URL of the test is accepted. -/
theorem shortenURL_bracketed_IPv6_rejected (draw : Option Nat) (v : Nat) :
    ParseRequestURI "http://[::1]/query" = (some ⟨"http", "", "[::1]"⟩, none) ∧
    ParseIP "[::1]" = false ∧ ParseIP "::1" = true ∧
    shortenURL "1" "1" "http://[::1]/query" "http://localhost:8080" draw =
      some (shortenedURL.zero, some (GoError.adhoc "failed to parse URI")) ∧
    (∀ (σ : Type) (saver : urlSaver σ) (st : σ),
      shortener.Short ⟨saver, "http://localhost:8080"⟩ st draw ⟨"1", "1", "http://[::1]/query"⟩ =
        some (("", some GoError.ErrInvalidCreation), st)) ∧
    (∃ su, shortenURL "1" "1" "http://192.168.1.1/query" "http://localhost:8080" (some v) =
      some (su, none)) := by
  have h : shortenURL "1" "1" "http://[::1]/query" "http://localhost:8080" draw =
      some (shortenedURL.zero, some (GoError.adhoc "failed to parse URI")) := by
    cases draw <;> rfl
  refine ⟨by decide, by decide, by decide, h, ?_, ?_⟩
  · intro σ saver st
    unfold shortener.Short
    simp only [h]
  · exact ⟨_, shortenURL_of_valid _ _ _ _ v (by decide)⟩

/-- C6: for a URL that passes the checks, `Short` hands to `Save` the entity
with the request's `UserID`, `CorrID` and `Raw`, a 7-character slug over the
alphabet, `Value = baseURL + "/" + slug` and `IsDeleted = false`; when that
`Save` succeeds, `Short` returns that `Value` with a nil error.  On the test
double the log then holds exactly that one `Save` call. -/
theorem Short_success {σ : Type} (s : shortener σ) (st : σ) (url : URL) (v : Nat)
    (hvalid : validCreation url.UserID url.Raw s.baseURL = true) :
    ∃ slug : String, base62 7 (some v) = some (slug, none) ∧ slug.length = 7 ∧
      (∀ c ∈ slug.data, c ∈ base62Alphabet) ∧
      (∀ st1, s.saver.Save st
          { UserID := url.UserID, CorrID := url.CorrID, Raw := url.Raw, Slug := slug,
            Value := s.baseURL ++ "/" ++ slug, IsDeleted := false } = (none, st1) →
        s.Short st (some v) url = some ((s.baseURL ++ "/" ++ slug, none), st1)) ∧
      (∀ SaveFn BatchFn log,
        SaveFn { UserID := url.UserID, CorrID := url.CorrID, Raw := url.Raw, Slug := slug,
                 Value := s.baseURL ++ "/" ++ slug, IsDeleted := false } = none →
        shortener.Short ⟨saverMock SaveFn BatchFn, s.baseURL⟩ log (some v) url =
          some ((s.baseURL ++ "/" ++ slug, none),
            log ++ [Call.Save
              { UserID := url.UserID, CorrID := url.CorrID, Raw := url.Raw, Slug := slug,
                Value := s.baseURL ++ "/" ++ slug, IsDeleted := false }])) := by
  refine ⟨String.mk (base62Loop 7 (v % 2 ^ 64)), rfl, ?_, base62Loop_mem _ _, ?_, ?_⟩
  · simp [String.length, base62Loop_length]
  · intro st1 hsave
    rw [Short_of_valid s st url v hvalid, hsave]
  · intro SaveFn BatchFn log hfn
    rw [Short_of_valid ⟨saverMock SaveFn BatchFn, s.baseURL⟩ log url v hvalid]
    simp only [saverMock, hfn]

/-- Instance of C6: the scenario `Short("u1", "", "http://example.com")` with
base URL `http://localhost:8080`, on the empty memory store. -/
theorem Short_success_witness :
    validCreation "u1" "http://example.com" "http://localhost:8080" = true ∧
    ∃ slug : String, base62 7 (some 12345678901234567) = some (slug, none) ∧ slug.length = 7 ∧
      shortener.Short ⟨memstorage.saver, "http://localhost:8080"⟩ memstorage.MemStorage
        (some 12345678901234567) ⟨"u1", "", "http://example.com"⟩ =
        some (("http://localhost:8080" ++ "/" ++ slug, none),
          (memstorage.MemStorage.Save
            ⟨"u1", "", "http://example.com", slug, "http://localhost:8080" ++ "/" ++ slug,
              false⟩).2) := by
  refine ⟨by decide, ?_⟩
  obtain ⟨slug, h1, h2, _, h4, _⟩ :=
    Short_success ⟨memstorage.saver, "http://localhost:8080"⟩ memstorage.MemStorage
      ⟨"u1", "", "http://example.com"⟩ 12345678901234567 (by decide)
  refine ⟨slug, h1, h2, h4 _ ?_⟩
  exact memstorage.Save_of_fresh memstorage.MemStorage _ rfl

/-- C7: for a URL that fails a check (empty `UserID`, empty `Raw`, a URI that
does not parse, a host that `net.ParseIP` rejects and that holds no `.`, or an
empty `baseURL`), `Short` returns the empty string with `ErrInvalidCreation`
and leaves the state of every backend as it was: `Save` is not called. -/
theorem Short_invalid {σ : Type} (s : shortener σ) (st : σ) (draw : Option Nat) (url : URL)
    (hinvalid : validCreation url.UserID url.Raw s.baseURL = false) :
    s.Short st draw url = some (("", some GoError.ErrInvalidCreation), st) := by
  obtain ⟨err, h⟩ := shortenURL_of_invalid url.UserID url.CorrID url.Raw s.baseURL draw hinvalid
  unfold shortener.Short
  rw [h]

/-- Instance of C7: the malformed URI of the tests, on the test double with an
empty log. -/
theorem Short_invalid_witness :
    validCreation "1" "httpdemo.com" "http://localhost:8080" = false ∧
    shortener.Short ⟨saverMock (fun _ => none) (fun _ => none), "http://localhost:8080"⟩ []
      (some 3) ⟨"1", "1", "httpdemo.com"⟩ = some (("", some GoError.ErrInvalidCreation), []) :=
  ⟨by decide,
   Short_invalid ⟨saverMock (fun _ => none) (fun _ => none), "http://localhost:8080"⟩ []
    (some 3) ⟨"1", "1", "httpdemo.com"⟩ (by decide)⟩

/-- C8: for a URL that passes the checks, when `Save` fails with an error that
is the storage sentinel (in the sense of `errors.Is`), `Short` returns the
service's `ErrUniqueViolation`; when it fails with any other error, `Short`
returns that error unchanged; the returned string is empty in both cases. -/
theorem Short_save_failure {σ : Type} (s : shortener σ) (st st1 : σ) (url : URL) (v : Nat)
    (err : GoError)
    (hvalid : validCreation url.UserID url.Raw s.baseURL = true)
    (hsave : s.saver.Save st
      { UserID := url.UserID, CorrID := url.CorrID, Raw := url.Raw,
        Slug := String.mk (base62Loop 7 (v % 2 ^ 64)),
        Value := s.baseURL ++ "/" ++ String.mk (base62Loop 7 (v % 2 ^ 64)),
        IsDeleted := false } = (some err, st1)) :
    (err = GoError.storageUniqueViolation →
      s.Short st (some v) url = some (("", some GoError.ErrUniqueViolation), st1)) ∧
    (errorsIs err GoError.storageUniqueViolation = true →
      s.Short st (some v) url = some (("", some GoError.ErrUniqueViolation), st1)) ∧
    (errorsIs err GoError.storageUniqueViolation = false →
      s.Short st (some v) url = some (("", some err), st1)) := by
  rw [Short_of_valid s st url v hvalid, hsave]
  refine ⟨?_, ?_, ?_⟩
  · rintro rfl
    rfl
  · intro h
    simp only [h, if_true]
  · intro h
    simp only [h, Bool.false_eq_true, if_false]

/-- Instance of C8: the two failing cases of the service test, a `Save` that
returns the storage sentinel and one that returns an internal error. -/
theorem Short_save_failure_witness :
    shortener.Short
        ⟨saverMock (fun _ => some GoError.storageUniqueViolation) (fun _ => none),
          "http://localhost:8080"⟩ [] (some 7) ⟨"1", "1", "http://192.168.1.1/query"⟩ =
      some (("", some GoError.ErrUniqueViolation),
        [Call.Save ⟨"1", "1", "http://192.168.1.1/query", String.mk (base62Loop 7 (7 % 2 ^ 64)),
          "http://localhost:8080" ++ "/" ++ String.mk (base62Loop 7 (7 % 2 ^ 64)), false⟩]) ∧
    shortener.Short
        ⟨saverMock (fun _ => some (GoError.adhoc "internal error")) (fun _ => none),
          "http://localhost:8080"⟩ [] (some 7) ⟨"1", "1", "http://192.168.1.1/query"⟩ =
      some (("", some (GoError.adhoc "internal error")),
        [Call.Save ⟨"1", "1", "http://192.168.1.1/query", String.mk (base62Loop 7 (7 % 2 ^ 64)),
          "http://localhost:8080" ++ "/" ++ String.mk (base62Loop 7 (7 % 2 ^ 64)), false⟩]) :=
  ⟨(Short_save_failure
      ⟨saverMock (fun _ => some GoError.storageUniqueViolation) (fun _ => none),
        "http://localhost:8080"⟩ [] _ ⟨"1", "1", "http://192.168.1.1/query"⟩ 7
      GoError.storageUniqueViolation (by decide) rfl).1 rfl,
   (Short_save_failure
      ⟨saverMock (fun _ => some (GoError.adhoc "internal error")) (fun _ => none),
        "http://localhost:8080"⟩ [] _ ⟨"1", "1", "http://192.168.1.1/query"⟩ 7
      (GoError.adhoc "internal error") (by decide) rfl).2.2 (by decide)⟩

/-- C9: `shortener.Batch` returns the nil list with `ErrEmptyBatch` for the
nil and for the empty input, and the nil list with `ErrInvalidCreation` for a
non-empty input that holds, at any position, a URL failing a check; in both
cases the state of every backend is as it was: its `Batch` is not called. -/
theorem Batch_rejects {σ : Type} (s : shortener σ) (st : σ) (draws : Nat → Option Nat) :
    s.Batch st draws none = some ((none, some GoError.ErrEmptyBatch), st) ∧
    s.Batch st draws (some []) = some ((none, some GoError.ErrEmptyBatch), st) ∧
    ∀ l : List URL, l ≠ [] →
      (∃ u ∈ l, validCreation u.UserID u.Raw s.baseURL = false) →
      s.Batch st draws (some l) = some ((none, some GoError.ErrInvalidCreation), st) := by
  refine ⟨rfl, rfl, ?_⟩
  intro l hne hinv
  unfold shortener.Batch
  have hlen : ¬ Slice.len (some l) = 0 := by
    cases l with
    | nil => exact absurd rfl hne
    | cons a l => simp [Slice.len, Slice.elems]
  rw [if_neg hlen]
  simp only [Slice.elems, batchLoop_of_invalid s.baseURL draws l 0 hinv]

/-- Instance of C9: a batch whose first URL has an empty user id, on the test
double with an empty log. -/
theorem Batch_rejects_witness :
    shortener.Batch ⟨saverMock (fun _ => none) (fun _ => none), "http://localhost:8080"⟩ []
      (fun _ => some 1)
      (some [⟨"", "1", "http://example.com/query1"⟩, ⟨"1", "2", "http://example.com/query2"⟩]) =
      some ((none, some GoError.ErrInvalidCreation), []) :=
  (Batch_rejects ⟨saverMock (fun _ => none) (fun _ => none), "http://localhost:8080"⟩ []
    (fun _ => some 1)).2.2
    [⟨"", "1", "http://example.com/query1"⟩, ⟨"1", "2", "http://example.com/query2"⟩]
    (by decide) ⟨⟨"", "1", "http://example.com/query1"⟩, by decide, by decide⟩

/-- C10: for a non-empty list of URLs that all pass the checks, `Batch` builds
a list of the same length whose `i`-th entity has the `i`-th request's
`UserID`, `CorrID` and `Raw`, a 7-character slug, `Value = baseURL + "/" + Slug`
and `IsDeleted = false`; it hands that list to the backend's `Batch` and, when
that succeeds, returns the same list with a nil error.  On the test double the
log then holds exactly that one `Batch` call. -/
theorem Batch_success {σ : Type} (s : shortener σ) (st : σ) (vs : Nat → Nat) (l : List URL)
    (hne : l ≠ [])
    (hvalid : ∀ u ∈ l, validCreation u.UserID u.Raw s.baseURL = true) :
    ∃ built : List ShortenedURL,
      built.length = l.length ∧
      (∀ i u, l[i]? = some u →
        ∃ slug : String, base62 7 (some (vs i)) = some (slug, none) ∧ slug.length = 7 ∧
          built[i]? = some
            { UserID := u.UserID, CorrID := u.CorrID, Raw := u.Raw, Slug := slug,
              Value := s.baseURL ++ "/" ++ slug, IsDeleted := false }) ∧
      (∀ st1, s.saver.Batch st (some built) = (none, st1) →
        s.Batch st (fun i => some (vs i)) (some l) = some ((some built, none), st1)) ∧
      (∀ SaveFn BatchFn log, BatchFn (some built) = none →
        shortener.Batch ⟨saverMock SaveFn BatchFn, s.baseURL⟩ log (fun i => some (vs i))
          (some l) = some ((some built, none), log ++ [Call.Batch (some built)])) := by
  obtain ⟨sus, hloop, hlen, hpt⟩ := batchLoop_of_valid s.baseURL vs l 0 hvalid
  have hl : ¬ Slice.len (some l) = 0 := by
    cases l with
    | nil => exact absurd rfl hne
    | cons a l => simp [Slice.len, Slice.elems]
  refine ⟨shortenedURLs.ToModel sus, ?_, ?_, ?_, ?_⟩
  · simp [shortenedURLs.ToModel, hlen]
  · intro i u hi
    refine ⟨String.mk (base62Loop 7 (vs i % 2 ^ 64)), rfl, ?_, ?_⟩
    · simp [String.length, base62Loop_length]
    · have := hpt i u hi
      simp only [Nat.zero_add] at this
      simp [shortenedURLs.ToModel, this, shortenedURL.ToModel]
  · intro st1 hb
    unfold shortener.Batch
    rw [if_neg hl]
    simp only [Slice.elems, hloop, hb]
  · intro SaveFn BatchFn log hb
    unfold shortener.Batch
    rw [if_neg hl]
    simp only [Slice.elems, hloop, saverMock, hb]

/-- Instance of C10: two URLs of the service test, batched into the empty
memory store. -/
theorem Batch_success_witness :
    ∃ built : List ShortenedURL,
      built.length = 2 ∧
      shortener.Batch ⟨memstorage.saver, "http://localhost:8080"⟩ memstorage.MemStorage
        (fun i => some (1000 + i))
        (some [⟨"1", "1", "http://example.com/query1"⟩, ⟨"1", "2", "http://example.com/query2"⟩]) =
        some ((some built, none), (memstorage.MemStorage.Batch (some built)).2) := by
  obtain ⟨built, h1, _, h3, _⟩ :=
    Batch_success ⟨memstorage.saver, "http://localhost:8080"⟩ memstorage.MemStorage
      (fun i => 1000 + i)
      [⟨"1", "1", "http://example.com/query1"⟩, ⟨"1", "2", "http://example.com/query2"⟩]
      (by decide) (by decide)
  exact ⟨built, h1, h3 _ rfl⟩

/-- C11: in the memory store, for a slug under which nothing is stored, and in
the file store at rest (reader at offset 0, mutex free, the seek of the rewind
succeeding), for a log of records none of which carries the slug, `GetBySlug`
returns the zero entity, for which `Empty` is true, with a nil error. -/
theorem GetBySlug_unknown (c : filestorage.Codec) (hc : c.Lawful) :
    (∀ (ms : memstorage.memStorage) (slug : String), ms.data.get slug = none →
      ms.GetBySlug slug = (ShortenedURL.zero, none)) ∧
    (∀ (rs : List filestorage.ShortenedURL) (l : List Nat) (slug : String),
      filestorage.logOf c rs = some l → (∀ r ∈ rs, r.Slug ≠ slug) →
      filestorage.fileStorage.GetBySlug c ⟨l, 0, false⟩ none slug =
        Run.done ((ShortenedURL.zero, none), ⟨l, 0, false⟩)) ∧
    ShortenedURL.zero.Empty = true := by
  refine ⟨?_, ?_, by decide⟩
  · intro ms slug h
    simp only [memstorage.memStorage.GetBySlug, h]
  · intro rs l slug hl hno
    obtain ⟨records, hrec, hlist⟩ := filestorage.List_logOf c hc rs l none hl
    have hfind : (records.elems.find? fun r => decide (r.Slug = slug)) = none := by
      rw [hrec, List.find?_eq_none]
      intro r hr
      simpa using hno r hr
    simp only [filestorage.fileStorage.GetBySlug, Bool.false_eq_true, if_false, hlist, hfind,
      if_true]

/-- Instance of C11: the slug `no` of the store tests, on the empty memory
store and on a file log with one record. -/
theorem GetBySlug_unknown_witness :
    memstorage.MemStorage.GetBySlug "no" = (ShortenedURL.zero, none) ∧
    ∃ l, filestorage.logOf filestorage.frameCodec
        [⟨"slug1", "1", "1", "http://127.0.0.1/slug1", "http://demo.com", false⟩] = some l ∧
      filestorage.fileStorage.GetBySlug filestorage.frameCodec ⟨l, 0, false⟩ none "no" =
        Run.done ((ShortenedURL.zero, none), ⟨l, 0, false⟩) :=
  ⟨(GetBySlug_unknown filestorage.frameCodec filestorage.frameCodec_lawful).1
      memstorage.MemStorage "no" rfl,
   ⟨_, rfl, (GetBySlug_unknown filestorage.frameCodec filestorage.frameCodec_lawful).2.1
      [⟨"slug1", "1", "1", "http://127.0.0.1/slug1", "http://demo.com", false⟩] _ "no" rfl
      (by decide)⟩⟩

theorem postgres.scanRows_ok (rows : List (ShortenedURL × Option GoError))
    (records : List ShortenedURL) (h : ∀ row ∈ rows, row.2 = none) :
    postgres.scanRows rows records = Except.ok (records ++ rows.map Prod.fst) := by
  induction rows generalizing records with
  | nil => simp [postgres.scanRows]
  | cons row rows ih =>
    obtain ⟨r, e⟩ := row
    have he : e = none := h (r, e) (List.mem_cons_self _ _)
    subst he
    simp only [postgres.scanRows, List.map_cons]
    rw [ih _ (fun row hrow => h row (List.mem_cons_of_mem _ hrow))]
    simp

/-- C12, evaluated: the memory store and the file store return the error
`userID is empty` for the empty user id, but the relational store makes no
such test; when the database answers without an error, whatever rows `found`
it finds (none, for an empty table), its `CollectByUser` returns them with a
nil error. -/
theorem CollectByUser_empty_userID (c : filestorage.Codec) :
    (∀ ms : memstorage.memStorage,
      ms.CollectByUser "" = (none, some (GoError.adhoc "userID is empty"))) ∧
    (∀ (fs : filestorage.fileStorage) (seek : Option GoError),
      filestorage.fileStorage.CollectByUser c fs seek "" =
        Run.done ((none, some (GoError.adhoc "userID is empty")), fs)) ∧
    postgres.CollectByUser ⟨none, fun _ _ => none, fun _ _ => [], none⟩ "" = (some [], none) ∧
    (∀ found : List ShortenedURL,
      postgres.CollectByUser
        ⟨none, fun _ _ => none, fun _ _ => found.map fun r => (r, none), none⟩ "" =
        (some found, none)) := by
  refine ⟨fun ms => rfl, fun fs seek => rfl, rfl, ?_⟩
  intro found
  have h := postgres.scanRows_ok (found.map fun r => (r, (none : Option GoError))) []
    (by simp)
  simp only [postgres.CollectByUser, h]
  simp [Function.comp_def]

/-- C13: for a user id that is not empty, `CollectByUser` returns a nil error
and the stored entities of that user, all fields as stored: in the memory
store one entity for each slug whose record has that user id and no other
entity; in the file store at rest the records of the log with that user id, in
write order.  The list is empty when the user owns nothing. -/
theorem CollectByUser_spec (c : filestorage.Codec) (hc : c.Lawful) (userID : String)
    (hu : userID ≠ "") :
    (∀ ms : memstorage.memStorage, ∃ l : List ShortenedURL,
      ms.CollectByUser userID = (some l, none) ∧ (l.map fun e => e.Slug).Nodup ∧
      ∀ e, e ∈ l ↔
        ∃ r, ms.data.get e.Slug = some r ∧ r.UserID = userID ∧ e = r.ToModel e.Slug) ∧
    (∀ (rs : List filestorage.ShortenedURL) (l : List Nat),
      filestorage.logOf c rs = some l →
      filestorage.fileStorage.CollectByUser c ⟨l, 0, false⟩ none userID =
        Run.done ((some ((rs.filter fun r => decide (r.UserID = userID)).map
          filestorage.ShortenedURL.ToModel), none), ⟨l, 0, false⟩)) := by
  have hlen : ¬ userID.length = 0 := by
    rw [String_length_eq_zero]
    exact hu
  constructor
  · intro ms
    refine ⟨(ms.data.entries.filter fun p => decide (p.2.UserID = userID)).map
      fun p => p.2.ToModel p.1,
      by simp only [memstorage.memStorage.CollectByUser, hlen, if_false], ?_, ?_⟩
    · rw [List.map_map]
      have hsub : ((ms.data.entries.filter fun p => decide (p.2.UserID = userID)).map Prod.fst).Sublist
          (ms.data.entries.map Prod.fst) := (List.filter_sublist _).map _
      exact ms.data.nodup.sublist hsub
    · intro e
      simp only [List.mem_map, List.mem_filter, decide_eq_true_eq]
      constructor
      · rintro ⟨⟨k, r⟩, ⟨hmem, hr⟩, rfl⟩
        exact ⟨r, (GoMap.mem_entries_iff _ _ _).mp hmem, hr, rfl⟩
      · rintro ⟨r, hget, hr, he⟩
        exact ⟨(e.Slug, r), ⟨(GoMap.mem_entries_iff _ _ _).mpr hget, hr⟩, he.symm⟩
  · intro rs l hl
    obtain ⟨records, hrec, hlist⟩ := filestorage.List_logOf c hc rs l none hl
    have hidx := filestorage.collectIdxs_getD userID [] rs
    simp only [List.length_nil, List.nil_append] at hidx
    simp only [filestorage.fileStorage.CollectByUser, hlen, if_false, Bool.false_eq_true, hlist,
      if_true, hrec, hidx, filestorage.shortenedURLs.ToModel]

/-- Instance of C13: user `1` in a memory store and in a file log that hold one
record of user `1` and one of user `2`. -/
theorem CollectByUser_spec_witness :
    (∃ l : List ShortenedURL,
      (memstorage.memStorage.Batch memstorage.MemStorage
        (some [⟨"1", "1", "http://demo.com", "slug1", "http://127.0.0.1/slug1", false⟩,
               ⟨"2", "1", "http://test.com", "slug2", "http://127.0.0.1/slug2", false⟩])).2.CollectByUser
        "1" = (some l, none) ∧ (l.map fun e => e.Slug).Nodup) ∧
    ∃ b, filestorage.logOf filestorage.frameCodec
        [⟨"slug1", "1", "1", "http://127.0.0.1/slug1", "http://demo.com", false⟩,
         ⟨"slug2", "2", "1", "http://127.0.0.1/slug2", "http://test.com", false⟩] = some b ∧
      filestorage.fileStorage.CollectByUser filestorage.frameCodec ⟨b, 0, false⟩ none "1" =
        Run.done ((some [⟨"1", "1", "http://demo.com", "slug1", "http://127.0.0.1/slug1", false⟩],
          none), ⟨b, 0, false⟩) := by
  have h := CollectByUser_spec filestorage.frameCodec filestorage.frameCodec_lawful "1" (by decide)
  refine ⟨?_, _, rfl, h.2
    [⟨"slug1", "1", "1", "http://127.0.0.1/slug1", "http://demo.com", false⟩,
     ⟨"slug2", "2", "1", "http://127.0.0.1/slug2", "http://test.com", false⟩] _ rfl⟩
  obtain ⟨l, h1, h2, _⟩ := h.1 (memstorage.memStorage.Batch memstorage.MemStorage
        (some [⟨"1", "1", "http://demo.com", "slug1", "http://127.0.0.1/slug1", false⟩,
               ⟨"2", "1", "http://test.com", "slug2", "http://127.0.0.1/slug2", false⟩])).2
  exact ⟨l, h1, h2⟩

/-- C14: `memStorage.Delete(userID, slugs)` returns nil and, in whatever order
the workers take the slugs, leaves under every slug the record that was
there with `IsDeleted` set to the old value or (the slug is listed and the
record's `UserID` is `userID`), every other field as it was; no slug is added
or removed.  A record of another user and a slug that is not stored are left
as they were. -/
theorem memStorage_Delete_spec (ms : memstorage.memStorage) (userID : String)
    (slugs : Slice String) (sched : List String) (hperm : sched.Perm slugs.elems) :
    (ms.Delete userID sched).1 = none ∧
    (∀ slug, (ms.Delete userID sched).2.data.get slug =
      (ms.data.get slug).map fun r =>
        { r with IsDeleted :=
            r.IsDeleted || (decide (slug ∈ slugs.elems) && decide (r.UserID = userID)) }) ∧
    (∀ slug r, ms.data.get slug = some r → r.UserID ≠ userID →
      (ms.Delete userID sched).2.data.get slug = some r) ∧
    (∀ slug, ms.data.get slug = none → (ms.Delete userID sched).2.data.get slug = none) := by
  have hget : ∀ slug, (ms.Delete userID sched).2.data.get slug =
      (ms.data.get slug).map fun r =>
        { r with IsDeleted :=
            r.IsDeleted || (decide (slug ∈ slugs.elems) && decide (r.UserID = userID)) } := by
    intro slug
    have hmem : (slug ∈ sched) = (slug ∈ slugs.elems) := propext hperm.mem_iff
    simp only [memstorage.memStorage.Delete, memstorage.Delete_get, hmem]
  refine ⟨rfl, hget, ?_, ?_⟩
  · intro slug r hr hne
    rw [hget, hr]
    simp [hne]
  · intro slug hr
    rw [hget, hr]
    rfl

/-- Instance of C14: user `1` deletes two stored slugs and one that is not
stored; the workers take them in another order.  Its own record is marked, the
record of user `2` is as it was. -/
theorem memStorage_Delete_spec_witness :
    ((memstorage.memStorage.Batch memstorage.MemStorage
        (some [⟨"1", "1", "http://demo.com/1", "slug1", "http://127.0.0.1/slug1", false⟩,
               ⟨"2", "1", "http://test.com/1", "slug6", "http://127.0.0.1/slug6", false⟩])).2.Delete
        "1" ["nope", "slug6", "slug1"]).2.data.get "slug6" =
      some ⟨"2", "1", "http://test.com/1", "http://127.0.0.1/slug6", false⟩ ∧
    ((memstorage.memStorage.Batch memstorage.MemStorage
        (some [⟨"1", "1", "http://demo.com/1", "slug1", "http://127.0.0.1/slug1", false⟩,
               ⟨"2", "1", "http://test.com/1", "slug6", "http://127.0.0.1/slug6", false⟩])).2.Delete
        "1" ["nope", "slug6", "slug1"]).2.data.get "nope" = none :=
  ⟨(memStorage_Delete_spec
      (memstorage.memStorage.Batch memstorage.MemStorage
        (some [⟨"1", "1", "http://demo.com/1", "slug1", "http://127.0.0.1/slug1", false⟩,
               ⟨"2", "1", "http://test.com/1", "slug6", "http://127.0.0.1/slug6", false⟩])).2
      "1" (some ["slug1", "slug6", "nope"]) ["nope", "slug6", "slug1"] (by decide)).2.2.1
      "slug6" _ rfl (by decide),
   (memStorage_Delete_spec
      (memstorage.memStorage.Batch memstorage.MemStorage
        (some [⟨"1", "1", "http://demo.com/1", "slug1", "http://127.0.0.1/slug1", false⟩,
               ⟨"2", "1", "http://test.com/1", "slug6", "http://127.0.0.1/slug6", false⟩])).2
      "1" (some ["slug1", "slug6", "nope"]) ["nope", "slug6", "slug1"] (by decide)).2.2.2
      "nope" rfl⟩

/-- C15: `Stat` returns a nil error with `URLs` the number of stored records
and `Users` the number of distinct `UserID` values among them, in the memory
store and in the file store at rest; and after 10 records with pairwise
distinct slugs and raw URLs, over 7 distinct user ids, have been saved into an
empty store, `Stat` returns `{URLs: 10, Users: 7}`. -/
theorem Stat_spec (c : filestorage.Codec) (hc : c.Lawful) :
    (∀ ms : memstorage.memStorage,
      ms.Stat = ({ URLs := ms.data.entries.length,
                   Users := (ms.data.entries.map fun p => p.2.UserID).toFinset.card }, none)) ∧
    (∀ (rs : List filestorage.ShortenedURL) (l : List Nat), filestorage.logOf c rs = some l →
      filestorage.fileStorage.Stat c ⟨l, 0, false⟩ none =
        Run.done (({ URLs := rs.length, Users := (rs.map fun r => r.UserID).toFinset.card },
          none), ⟨l, 0, false⟩)) ∧
    (∀ rs : List ShortenedURL, rs.length = 10 → (rs.map fun e => e.Slug).Nodup →
      (rs.map fun e => e.Raw).Nodup → (rs.map fun e => e.UserID).toFinset.card = 7 →
      ∃ ms, memstorage.seed memstorage.MemStorage rs = some ms ∧
        ms.Stat = ({ URLs := 10, Users := 7 }, none)) ∧
    (∀ (rs : List ShortenedURL) (l : List Nat), rs.length = 10 →
      (rs.map fun e => e.UserID).toFinset.card = 7 →
      filestorage.logOf c (rs.map filestorage.newShortenedURL) = some l →
      ∃ fs, filestorage.seed c ⟨[], 0, false⟩ rs = some fs ∧
        filestorage.fileStorage.Stat c fs none =
          Run.done (({ URLs := 10, Users := 7 }, none), fs)) := by
  refine ⟨memstorage.Stat_eq, filestorage.Stat_logOf c hc, ?_, ?_⟩
  · intro rs hlen hslug hraw husers
    obtain ⟨ms, hseed, hentries⟩ := memstorage.seed_entries rs [] memstorage.MemStorage rfl
      (by simpa using hslug) (by simpa using hraw)
    refine ⟨ms, hseed, ?_⟩
    rw [memstorage.Stat_eq, hentries]
    simp only [List.nil_append, List.length_map, List.length_reverse, hlen, List.map_map,
      List.map_reverse, List.toFinset_reverse]
    have : ((fun p : String × memstorage.shortenedURL => p.2.UserID) ∘
        fun e : ShortenedURL => (e.Slug, memstorage.newShortenedURL e)) = fun e => e.UserID := rfl
    rw [this, husers]
  · intro rs l hlen husers hl
    refine ⟨⟨[] ++ l, 0, false⟩, filestorage.seed_logOf c rs [] l 0 hl, ?_⟩
    rw [List.nil_append, filestorage.Stat_logOf c hc _ l hl]
    simp only [List.length_map, hlen, List.map_map]
    have : ((fun r : filestorage.ShortenedURL => r.UserID) ∘ filestorage.newShortenedURL) =
        fun e => e.UserID := rfl
    rw [this, husers]

/-- Instance of C15: the 10 records of the store test, saved into the empty
memory store and into the empty file. -/
theorem Stat_spec_witness :
    (∃ ms, memstorage.seed memstorage.MemStorage memstorage.statRecords = some ms ∧
      ms.Stat = ({ URLs := 10, Users := 7 }, none)) ∧
    ∃ fs, filestorage.seed filestorage.frameCodec ⟨[], 0, false⟩ memstorage.statRecords =
        some fs ∧
      filestorage.fileStorage.Stat filestorage.frameCodec fs none =
        Run.done (({ URLs := 10, Users := 7 }, none), fs) :=
  ⟨(Stat_spec filestorage.frameCodec filestorage.frameCodec_lawful).2.2.1
      memstorage.statRecords (by decide) (by decide) (by decide) (by decide),
   (Stat_spec filestorage.frameCodec filestorage.frameCodec_lawful).2.2.2
      memstorage.statRecords _ (by decide) (by decide) rfl⟩

/-- C16: in the memory store, when `Save(e)` returns nil, `GetBySlug(e.Slug)`
right after it returns a nil error and the entity `e`, equal in `UserID`,
`CorrID`, `Raw`, `Slug` and `Value` (and in `IsDeleted`). -/
theorem memStorage_Save_GetBySlug (ms : memstorage.memStorage) (e : ShortenedURL)
    (h : (ms.Save e).1 = none) :
    (ms.Save e).2.GetBySlug e.Slug = (e, none) ∧
    ∃ g, (ms.Save e).2.GetBySlug e.Slug = (g, none) ∧ g.UserID = e.UserID ∧
      g.CorrID = e.CorrID ∧ g.Raw = e.Raw ∧ g.Slug = e.Slug ∧ g.Value = e.Value := by
  have hget : (ms.Save e).2.GetBySlug e.Slug = (e, none) := by
    cases hany : ms.data.entries.any fun p =>
        decide (p.2.Raw = e.Raw) && decide (p.2.UserID = e.UserID) with
    | true =>
      rw [memstorage.Save_of_present ms e hany] at h
      cases h
    | false =>
      rw [memstorage.Save_of_fresh ms e hany]
      simp only [memstorage.memStorage.GetBySlug, GoMap.get_set_same]
      rfl
  exact ⟨hget, e, hget, rfl, rfl, rfl, rfl, rfl⟩

/-- Instance of C16: the record of the store test, saved into the empty store. -/
theorem memStorage_Save_GetBySlug_witness :
    (memstorage.MemStorage.Save
        ⟨"1", "1", "http://demo.com", "slug1", "http://127.0.0.1/slug1", false⟩).2.GetBySlug
      "slug1" = (⟨"1", "1", "http://demo.com", "slug1", "http://127.0.0.1/slug1", false⟩, none) :=
  (memStorage_Save_GetBySlug memstorage.MemStorage
    ⟨"1", "1", "http://demo.com", "slug1", "http://127.0.0.1/slug1", false⟩ rfl).1

/-- C17 fails when the log already holds a record with the slug of `e`: the
file store appends `e` without looking at the log, and `GetBySlug` returns the
first record of the log with that slug, here the older one with another raw
URL. -/
theorem fileStorage_Save_GetBySlug_counterexample :
    ∃ fs0 fs1,
      filestorage.seed filestorage.frameCodec ⟨[], 0, false⟩
        [⟨"1", "1", "http://demo.com", "slug1", "http://127.0.0.1/slug1", false⟩] = some fs0 ∧
      filestorage.fileStorage.Save filestorage.frameCodec fs0 none
        ⟨"2", "7", "http://other.com", "slug1", "http://127.0.0.1/slug1", false⟩ =
        Run.done (none, fs1) ∧
      filestorage.fileStorage.GetBySlug filestorage.frameCodec fs1 none "slug1" =
        Run.done ((⟨"1", "1", "http://demo.com", "slug1", "http://127.0.0.1/slug1", false⟩,
          none), fs1) ∧
      ("http://demo.com" : String) ≠ "http://other.com" :=
  ⟨_, _, rfl, rfl, rfl, by decide⟩

/-- C17 as amended: in the file store at rest, for a log of records none of
which carries the slug of `e`, when `Save(e)` returns nil, `GetBySlug(e.Slug)`
right after it (the seek of the rewind succeeding) returns a nil error and the
entity `e`. -/
theorem fileStorage_Save_GetBySlug (c : filestorage.Codec) (hc : c.Lawful)
    (rs : List filestorage.ShortenedURL) (l : List Nat) (e : ShortenedURL)
    (werr : Option GoError) (fs1 : filestorage.fileStorage)
    (hl : filestorage.logOf c rs = some l)
    (hfresh : ∀ r ∈ rs, r.Slug ≠ e.Slug)
    (hsave : filestorage.fileStorage.Save c ⟨l, 0, false⟩ werr e = Run.done (none, fs1)) :
    filestorage.fileStorage.GetBySlug c fs1 none e.Slug = Run.done ((e, none), fs1) ∧
    ∃ g, filestorage.fileStorage.GetBySlug c fs1 none e.Slug = Run.done ((g, none), fs1) ∧
      g.UserID = e.UserID ∧ g.CorrID = e.CorrID ∧ g.Raw = e.Raw ∧ g.Slug = e.Slug ∧
      g.Value = e.Value := by
  have hget : filestorage.fileStorage.GetBySlug c fs1 none e.Slug = Run.done ((e, none), fs1) := by
    simp only [filestorage.fileStorage.Save, Bool.false_eq_true, if_false,
      filestorage.msgpWriter.Write] at hsave
    cases hm : c.MarshalMsg (filestorage.newShortenedURL e) with
    | mk b err =>
      rw [hm] at hsave
      cases err with
      | some x => simp at hsave
      | none =>
        cases werr with
        | some x => simp at hsave
        | none =>
          simp only [Run.done.injEq, Prod.mk.injEq, true_and] at hsave
          subst hsave
          have hl1 := filestorage.logOf_append c rs _ l b hl hm
          obtain ⟨records, hrec, hlist⟩ := filestorage.List_logOf c hc _ _ none hl1
          have hfind : (records.elems.find? fun r => decide (r.Slug = e.Slug)) =
              some (filestorage.newShortenedURL e) := by
            rw [hrec, List.find?_append]
            have hnone : (rs.find? fun r => decide (r.Slug = e.Slug)) = none := by
              rw [List.find?_eq_none]
              intro r hr
              simpa using hfresh r hr
            rw [hnone]
            simp [filestorage.newShortenedURL]
          simp only [filestorage.fileStorage.GetBySlug, Bool.false_eq_true, if_false, hlist,
            hfind, if_true]
          rfl
  exact ⟨hget, e, hget, rfl, rfl, rfl, rfl, rfl⟩

/-- Instance of amended C17: a record with a new slug saved into a log of one
record. -/
theorem fileStorage_Save_GetBySlug_witness :
    ∃ l fs1,
      filestorage.logOf filestorage.frameCodec
        [⟨"slug1", "1", "1", "http://127.0.0.1/slug1", "http://demo.com", false⟩] = some l ∧
      filestorage.fileStorage.Save filestorage.frameCodec ⟨l, 0, false⟩ none
        ⟨"2", "7", "http://other.com", "slug2", "http://127.0.0.1/slug2", false⟩ =
        Run.done (none, fs1) ∧
      filestorage.fileStorage.GetBySlug filestorage.frameCodec fs1 none "slug2" =
        Run.done ((⟨"2", "7", "http://other.com", "slug2", "http://127.0.0.1/slug2", false⟩,
          none), fs1) :=
  ⟨_, _, rfl, rfl,
   (fileStorage_Save_GetBySlug filestorage.frameCodec filestorage.frameCodec_lawful
      [⟨"slug1", "1", "1", "http://127.0.0.1/slug1", "http://demo.com", false⟩] _
      ⟨"2", "7", "http://other.com", "slug2", "http://127.0.0.1/slug2", false⟩ none _ rfl
      (by decide) rfl).1⟩

/-- C18: after the records `zs` have been appended to an empty file by
`msgpWriter.Write` calls that all return nil, `List` (the seek of its rewind
succeeding) returns exactly `zs`, in write order, with a nil error, and leaves
the reader at the offset it started from, so the next `List` returns the
same.  The same holds when the records are written by `Save` calls that all
return nil. -/
theorem List_after_writes (c : filestorage.Codec) (hc : c.Lawful)
    (zs : List filestorage.ShortenedURL) (file : List Nat)
    (hw : filestorage.writes c [] zs = some file) :
    (∃ (records : Slice filestorage.ShortenedURL) (pos1 : Nat),
      filestorage.msgpReader.List c file 0 none = Run.done ((records, none), pos1) ∧
      records.elems = zs ∧
      filestorage.msgpReader.List c file pos1 none = Run.done ((records, none), pos1)) ∧
    (∀ (es : List ShortenedURL) (fs : filestorage.fileStorage),
      filestorage.seed c ⟨[], 0, false⟩ es = some fs →
      ∃ records : Slice filestorage.ShortenedURL,
        filestorage.msgpReader.List c fs.file fs.rpos none =
          Run.done ((records, none), fs.rpos) ∧
        records.elems = es.map filestorage.newShortenedURL) := by
  constructor
  · obtain ⟨l, hl, hfile⟩ := filestorage.writes_logOf c zs [] file hw
    rw [List.nil_append] at hfile
    subst hfile
    obtain ⟨records, hrec, hlist⟩ := filestorage.List_logOf c hc zs file none hl
    simp only [if_true] at hlist
    exact ⟨records, 0, hlist, hrec, hlist⟩
  · intro es fs hseed
    obtain ⟨l, hl, hfs⟩ := filestorage.seed_inv c es [] 0 fs hseed
    subst hfs
    obtain ⟨records, hrec, hlist⟩ := filestorage.List_logOf c hc _ l none hl
    simp only [if_true] at hlist
    exact ⟨records, by simpa using hlist, hrec⟩

/-- Instance of C18: two records written to the empty file and listed. -/
theorem List_after_writes_witness :
    ∃ file, filestorage.writes filestorage.frameCodec []
        [⟨"slug1", "1", "1", "http://127.0.0.1/slug1", "http://demo.com", false⟩,
         ⟨"slug2", "2", "1", "http://127.0.0.1/slug2", "http://test.com", true⟩] = some file ∧
      ∃ (records : Slice filestorage.ShortenedURL) (pos1 : Nat),
        filestorage.msgpReader.List filestorage.frameCodec file 0 none =
          Run.done ((records, none), pos1) ∧
        records.elems =
          [⟨"slug1", "1", "1", "http://127.0.0.1/slug1", "http://demo.com", false⟩,
           ⟨"slug2", "2", "1", "http://127.0.0.1/slug2", "http://test.com", true⟩] ∧
        filestorage.msgpReader.List filestorage.frameCodec file pos1 none =
          Run.done ((records, none), pos1) :=
  ⟨_, rfl, (List_after_writes filestorage.frameCodec filestorage.frameCodec_lawful
    [⟨"slug1", "1", "1", "http://127.0.0.1/slug1", "http://demo.com", false⟩,
     ⟨"slug2", "2", "1", "http://127.0.0.1/slug2", "http://test.com", true⟩] _ rfl).1⟩

/-- C19: when `fileStorage.Batch` is called with the mutex free and the write of
a record fails, after the writes of the records `pre` before it succeeded, it
returns nil: the records of `pre` are appended to the log, the failing record
and the records after it are not written, and no error reaches the caller.
The mutex is still held when it returns. -/
theorem fileStorage_Batch_failed_write (c : filestorage.Codec)
    (fs : filestorage.fileStorage) (werrs : Nat → Option GoError)
    (pre post : List ShortenedURL) (bad : ShortenedURL) (l : List Nat)
    (hfree : fs.mtx = false)
    (hl : filestorage.logOf c (pre.map filestorage.newShortenedURL) = some l)
    (hpre : ∀ j, j < pre.length → werrs j = none)
    (hbad : (c.MarshalMsg (filestorage.newShortenedURL bad)).2 ≠ none ∨
      werrs pre.length ≠ none) :
    filestorage.fileStorage.Batch c fs werrs (some (pre ++ bad :: post)) =
      Run.done (none, ⟨fs.file ++ l, fs.rpos, true⟩) := by
  have h := filestorage.writeAll_fail c werrs pre post bad 0 fs.file l hl
    (fun j hj => by simpa using hpre j hj) (by simpa using hbad)
  simp only [filestorage.fileStorage.Batch, hfree, Bool.false_eq_true, if_false, Slice.elems, h]

/-- Instance of C19: a batch of three records whose second write fails. -/
theorem fileStorage_Batch_failed_write_witness :
    ∃ l,
      filestorage.logOf filestorage.frameCodec
        [⟨"slug1", "1", "1", "http://127.0.0.1/slug1", "http://demo.com", false⟩] = some l ∧
      filestorage.fileStorage.Batch filestorage.frameCodec ⟨[], 0, false⟩
        (fun i => if i = 1 then some (GoError.adhoc "no space left on device") else none)
        (some [⟨"1", "1", "http://demo.com", "slug1", "http://127.0.0.1/slug1", false⟩,
               ⟨"1", "2", "http://demo2.com", "slug2", "http://127.0.0.1/slug2", false⟩,
               ⟨"1", "3", "http://demo3.com", "slug3", "http://127.0.0.1/slug3", false⟩]) =
        Run.done (none, ⟨[] ++ l, 0, true⟩) :=
  ⟨_, rfl,
   fileStorage_Batch_failed_write filestorage.frameCodec ⟨[], 0, false⟩
    (fun i => if i = 1 then some (GoError.adhoc "no space left on device") else none)
    [⟨"1", "1", "http://demo.com", "slug1", "http://127.0.0.1/slug1", false⟩]
    [⟨"1", "3", "http://demo3.com", "slug3", "http://127.0.0.1/slug3", false⟩]
    ⟨"1", "2", "http://demo2.com", "slug2", "http://127.0.0.1/slug2", false⟩ _ rfl rfl
    (by decide) (Or.inr (by decide))⟩

/-- C20: `fileStorage.Delete` returns the error `not implemented` and leaves the
store as it was, for every user id and every slug list, the nil and the empty
one too.  `Save` and `Batch` only append to the file and the reads leave it as
it is, so what has been written, the `IsDeleted` of a record too, stays as
written. -/
theorem fileStorage_Delete_spec (c : filestorage.Codec) (fs : filestorage.fileStorage)
    (userID : String) (slugs : Slice String) :
    fs.Delete userID slugs = (some (GoError.adhoc "not implemented"), fs) ∧
    fs.Delete userID none = (some (GoError.adhoc "not implemented"), fs) ∧
    fs.Delete userID (some []) = (some (GoError.adhoc "not implemented"), fs) ∧
    (∀ werr e r, filestorage.fileStorage.Save c fs werr e = Run.done r → fs.file <+: r.2.file) ∧
    (∀ werrs rs r, filestorage.fileStorage.Batch c fs werrs rs = Run.done r →
      fs.file <+: r.2.file) ∧
    (∀ seek slug r, filestorage.fileStorage.GetBySlug c fs seek slug = Run.done r →
      r.2.file = fs.file) ∧
    (∀ seek user r, filestorage.fileStorage.CollectByUser c fs seek user = Run.done r →
      r.2.file = fs.file) ∧
    (∀ seek r, filestorage.fileStorage.Stat c fs seek = Run.done r → r.2.file = fs.file) := by
  refine ⟨rfl, rfl, rfl, ?_, ?_, ?_, ?_, ?_⟩
  · intro werr e r h
    have hp := filestorage.prefix_Write c fs.file werr (filestorage.newShortenedURL e)
    unfold filestorage.fileStorage.Save at h
    split_ifs at h
    cases h
    exact hp
  · intro werrs rs r h
    have hp := filestorage.prefix_writeAll c werrs rs.elems 0 fs.file
    unfold filestorage.fileStorage.Batch at h
    split_ifs at h
    split at h
    · rename_i f hw
      rw [hw] at hp
      cases h
      exact hp
    · rename_i f hw
      rw [hw] at hp
      cases h
      exact hp
  · intro seek slug r h
    unfold filestorage.fileStorage.GetBySlug at h
    split_ifs at h
    repeat' split at h
    all_goals first
      | (cases h; done)
      | (cases h; rfl)
  · intro seek user r h
    unfold filestorage.fileStorage.CollectByUser at h
    split_ifs at h
    · cases h
      rfl
    · repeat' split at h
      all_goals first
        | (cases h; done)
        | (cases h; rfl)
  · intro seek r h
    unfold filestorage.fileStorage.Stat at h
    split_ifs at h
    repeat' split at h
    all_goals first
      | (cases h; done)
      | (cases h; rfl)

/-- Instance of C20: `Delete` with the nil slug list of the store test, and a
`Save` that keeps the log it finds as the start of the new log. -/
theorem fileStorage_Delete_spec_witness :
    filestorage.fileStorage.Delete ⟨[7, 7], 0, false⟩ "0001" none =
      (some (GoError.adhoc "not implemented"), ⟨[7, 7], 0, false⟩) ∧
    ∃ r, filestorage.fileStorage.Save filestorage.frameCodec ⟨[7, 7], 0, false⟩ none
        ⟨"1", "1", "http://demo.com", "slug1", "http://127.0.0.1/slug1", false⟩ = Run.done r ∧
      [7, 7] <+: r.2.file :=
  ⟨(fileStorage_Delete_spec filestorage.frameCodec ⟨[7, 7], 0, false⟩ "0001" none).1,
   ⟨_, rfl, (fileStorage_Delete_spec filestorage.frameCodec ⟨[7, 7], 0, false⟩ "0001"
      none).2.2.2.1 none _ _ rfl⟩⟩

/-- C28: for a drawn value `v` below `2 ^ 64` and a positive size, the
character of `base62` at index `i` is the symbol of the alphabet at position
`(v / 62 ^ (i + 1)) % 62`; every character at index 10 or beyond is `a`; and
two draws that differ only in their last base-62 digit give the same string,
so that digit does not appear. -/
theorem base62_digits (n : Int) (v : Nat) (hn : 0 < n) (hv : v < 2 ^ 64) :
    ∃ s : String, base62 n (some v) = some (s, none) ∧
      (∀ i, i < n.toNat → s.data[i]? = base62Alphabet[(v / 62 ^ (i + 1)) % 62]?) ∧
      (∀ i, 10 ≤ i → i < n.toNat → s.data[i]? = some 'a') ∧
      (∀ w, w < 2 ^ 64 → w / 62 = v / 62 → base62 n (some w) = base62 n (some v)) := by
  have hmod : v % 2 ^ 64 = v := Nat.mod_eq_of_lt hv
  have hb : ∀ w : Nat, base62 n (some w) =
      some (String.mk (base62Loop n.toNat (w % 2 ^ 64)), none) := by
    intro w
    unfold base62
    rw [if_neg (by omega), if_neg (by omega)]
  refine ⟨String.mk (base62Loop n.toNat (v % 2 ^ 64)), hb v, ?_, ?_, ?_⟩
  · intro i hi
    rw [hmod]
    exact base62Loop_getElem _ _ _ hi
  · intro i h10 hi
    rw [hmod]
    show (base62Loop n.toNat v)[i]? = some 'a'
    rw [base62Loop_getElem _ _ _ hi]
    have hpow : (62 : Nat) ^ 11 ≤ 62 ^ (i + 1) := Nat.pow_le_pow_right (by decide) (by omega)
    have hbig : v < 62 ^ (i + 1) := by
      have : (2 : Nat) ^ 64 < 62 ^ 11 := by norm_num
      omega
    rw [Nat.div_eq_of_lt hbig]
    rfl
  · intro w hw hdiv
    rw [hb w, hb v, Nat.mod_eq_of_lt hw, hmod, base62Loop_div _ w v hdiv]

/-- Instance of C28: size 12 and the largest 64-bit value. -/
theorem base62_digits_witness :
    ∃ s : String, base62 12 (some (2 ^ 64 - 1)) = some (s, none) ∧
      s.data[0]? = base62Alphabet[((2 ^ 64 - 1) / 62 ^ 1) % 62]? ∧
      s.data[10]? = some 'a' ∧ s.data[11]? = some 'a' := by
  obtain ⟨s, h1, h2, h3, _⟩ := base62_digits 12 (2 ^ 64 - 1) (by decide) (by norm_num)
  exact ⟨s, h1, h2 0 (by decide), h3 10 (by decide) (by decide), h3 11 (by decide) (by decide)⟩

/-- C27 fails for the empty slug list: `Delete` starts 10 workers for it, not
1. -/
theorem wcount_empty_counterexample :
    memstorage.wcount (some []) = 10 ∧ memstorage.wcount none = 10 ∧
    max 1 (min 10 (Slice.len (some ([] : List String)))) = 1 := by
  decide

/-- C27 as amended: `Delete` starts `len(slugs)` workers for 1 to 9 slugs and 10
workers otherwise, that is for an empty list and from 10 slugs on; for a list
that is not empty this is `max(1, min(10, len(slugs)))`. -/
theorem wcount_spec (slugs : Slice String) :
    memstorage.wcount slugs = (if 1 ≤ slugs.len ∧ slugs.len < 10 then slugs.len else 10) ∧
    (slugs.len = 0 → memstorage.wcount slugs = 10) ∧
    (1 ≤ slugs.len → memstorage.wcount slugs = max 1 (min 10 slugs.len)) := by
  have h : memstorage.wcount slugs =
      (if 1 ≤ slugs.len ∧ slugs.len < 10 then slugs.len else 10) := by
    unfold memstorage.wcount memstorage.workPoolSize
    split_ifs <;> omega
  refine ⟨h, ?_, ?_⟩
  · intro h0
    rw [h]
    split_ifs <;> omega
  · intro h1
    rw [h]
    split_ifs <;> omega

/-- Instance of amended C27: three slugs, three workers. -/
theorem wcount_spec_witness :
    memstorage.wcount (some ["slug1", "slug2", "slug3"]) = max 1 (min 10 3) :=
  (wcount_spec (some ["slug1", "slug2", "slug3"])).2.2 (by decide)

/-- C25: for a slug that is not empty the handler answers 500 when the provider
returns an error, else 404 when the entity is `Empty`, else 410 when the entity
is deleted, else 307 with the `Location` header read back as the entity's raw
URL; an entity with `IsDeleted` set never gets a 307. -/
theorem getBySlug_status (provider : String → ShortenedURL × Option GoError) (slug : String)
    (hslug : slug ≠ "") :
    (∀ e err, provider slug = (e, some err) →
      (httpv1.getBySlug provider slug).Status = 500) ∧
    (∀ e, provider slug = (e, none) → e.Empty = true →
      (httpv1.getBySlug provider slug).Status = 404) ∧
    (∀ e, provider slug = (e, none) → e.Empty = false → e.IsDeleted = true →
      (httpv1.getBySlug provider slug).Status = 410) ∧
    (∀ e, provider slug = (e, none) → e.Empty = false → e.IsDeleted = false →
      (httpv1.getBySlug provider slug).Status = 307 ∧
      (httpv1.getBySlug provider slug).getLocation = e.Raw) ∧
    (∀ e err, provider slug = (e, err) → e.IsDeleted = true →
      (httpv1.getBySlug provider slug).Status ≠ 307) := by
  have hlen : ¬ slug.length = 0 := by
    rw [String_length_eq_zero]
    exact hslug
  refine ⟨?_, ?_, ?_, ?_, ?_⟩
  · intro e err h
    simp only [httpv1.getBySlug, hlen, if_false, h]
  · intro e h he
    simp only [httpv1.getBySlug, hlen, if_false, h, he, if_true]
  · intro e h he hd
    simp only [httpv1.getBySlug, hlen, if_false, h, he, hd, Bool.false_eq_true, if_true]
  · intro e h he hd
    simp only [httpv1.getBySlug, hlen, if_false, h, he, hd, Bool.false_eq_true,
      httpv1.Response.getLocation, httpv1.setLocation, true_and]
    split_ifs with hr
    · simp [hr]
    · rfl
  · intro e err h hd
    have hne : e.Empty = false := by simp [ShortenedURL.Empty, hd]
    cases err with
    | some x => simp only [httpv1.getBySlug, hlen, if_false, h]; decide
    | none =>
      simp only [httpv1.getBySlug, hlen, if_false, h, hne, hd, Bool.false_eq_true, if_true]
      decide

/-- Instance of C25: the three cases of the handler test and a failing
provider. -/
theorem getBySlug_status_witness :
    (httpv1.getBySlug (fun _ => (⟨"", "1", "http://example.com/query_1", "tmp_slug",
        "http://localhost:8080/tmp_slug", false⟩, none)) "112Sd").Status = 307 ∧
    (httpv1.getBySlug (fun _ => (⟨"", "1", "http://example.com/query_1", "tmp_slug",
        "http://localhost:8080/tmp_slug", false⟩, none)) "112Sd").getLocation =
      "http://example.com/query_1" ∧
    (httpv1.getBySlug (fun _ => (⟨"1", "1", "http://example.com/query_1", "tmp_slug",
        "http://localhost:8080/tmp_slug", true⟩, none)) "112Sd").Status = 410 ∧
    (httpv1.getBySlug (fun _ => (ShortenedURL.zero, none)) "any_slug").Status = 404 ∧
    (httpv1.getBySlug (fun _ => (ShortenedURL.zero,
        some (GoError.adhoc "unable to get an URL using slug"))) "any_slug").Status = 500 :=
  ⟨((getBySlug_status _ "112Sd" (by decide)).2.2.2.1 _ rfl (by decide) rfl).1,
   ((getBySlug_status _ "112Sd" (by decide)).2.2.2.1 _ rfl (by decide) rfl).2,
   (getBySlug_status _ "112Sd" (by decide)).2.2.1 _ rfl (by decide) rfl,
   (getBySlug_status _ "any_slug" (by decide)).2.1 _ rfl (by decide),
   (getBySlug_status _ "any_slug" (by decide)).1 _ _ rfl⟩

/-- C26, evaluated: when the seek of the rewind fails, so that `List` returns a
non-nil error, `fileStorage.Stat` does not return: its goroutine returns before
it sends on `done` and the caller waits on `done` for ever.  `GetBySlug`, with
the same `List` result, returns the error. -/
theorem Stat_stuck_on_List_error (c : filestorage.Codec) (fs : filestorage.fileStorage)
    (e : GoError) :
    filestorage.fileStorage.Stat c fs (some e) = Run.stuck ∧
    filestorage.fileStorage.Stat filestorage.frameCodec ⟨[], 0, false⟩
      (some (GoError.adhoc "seek: bad file descriptor")) = Run.stuck ∧
    filestorage.msgpReader.List filestorage.frameCodec [] 0
      (some (GoError.adhoc "seek: bad file descriptor")) =
      Run.done ((none, some (GoError.adhoc "seek: bad file descriptor")), 0) ∧
    filestorage.fileStorage.GetBySlug filestorage.frameCodec ⟨[], 0, false⟩
      (some (GoError.adhoc "seek: bad file descriptor")) "slug1" =
      Run.done ((ShortenedURL.zero, some (GoError.adhoc "seek: bad file descriptor")),
        ⟨[], 0, false⟩) := by
  refine ⟨?_, rfl, rfl, rfl⟩
  unfold filestorage.fileStorage.Stat filestorage.msgpReader.List
  split_ifs
  · rfl
  · cases filestorage.listLoop c ((fs.file.drop fs.rpos).length + 1)
      filestorage.ShortenedURL.zero none (fs.file.drop fs.rpos) <;> rfl

/-- C21: with the mutex free, whenever the record marshals and the write of the
file succeeds, `fileStorage.Save` returns nil and appends the record, whatever
the log already holds; a log of the records `rs` becomes a log of `rs` and the
new record.  The error `Save` returns is nil, the error of the marshalling or
the error of the write: it makes no error of its own, so it returns no
uniqueness error when those two are none. -/
theorem fileStorage_Save_no_uniqueness (c : filestorage.Codec)
    (fs : filestorage.fileStorage) (e : ShortenedURL) (b : List Nat)
    (hfree : fs.mtx = false)
    (hm : c.MarshalMsg (filestorage.newShortenedURL e) = (b, none)) :
    filestorage.fileStorage.Save c fs none e =
      Run.done (none, ⟨fs.file ++ b, fs.rpos, false⟩) ∧
    (∀ rs, filestorage.logOf c rs = some fs.file →
      filestorage.logOf c (rs ++ [filestorage.newShortenedURL e]) = some (fs.file ++ b)) ∧
    (∀ (e1 : ShortenedURL) (werr err : Option GoError) (fs1 : filestorage.fileStorage),
      filestorage.fileStorage.Save c fs werr e1 = Run.done (err, fs1) →
      err = none ∨ err = (c.MarshalMsg (filestorage.newShortenedURL e1)).2 ∨ err = werr) := by
  refine ⟨?_, ?_, ?_⟩
  · simp only [filestorage.fileStorage.Save, hfree, Bool.false_eq_true, if_false,
      filestorage.msgpWriter.Write, hm]
  · intro rs hl
    exact filestorage.logOf_append c rs _ _ b hl hm
  · intro e1 werr err fs1 h
    simp only [filestorage.fileStorage.Save, hfree, Bool.false_eq_true, if_false,
      filestorage.msgpWriter.Write] at h
    cases hm1 : c.MarshalMsg (filestorage.newShortenedURL e1) with
    | mk b1 merr =>
      rw [hm1] at h
      cases merr with
      | some x =>
        simp only [Run.done.injEq, Prod.mk.injEq] at h
        exact Or.inr (Or.inl h.1.symm)
      | none =>
        cases werr with
        | some x =>
          simp only [Run.done.injEq, Prod.mk.injEq] at h
          exact Or.inr (Or.inr h.1.symm)
        | none =>
          simp only [Run.done.injEq, Prod.mk.injEq] at h
          exact Or.inl h.1.symm

/-- Instance of C21: the record of the store test saved twice; the second
`Save`, of the same slug, raw URL and user, returns nil as well and the log
holds the record twice. -/
theorem fileStorage_Save_no_uniqueness_witness :
    ∃ b fs1,
      filestorage.seed filestorage.frameCodec ⟨[], 0, false⟩
        [⟨"1", "1", "http://demo.com", "slug1", "http://127.0.0.1/slug1", false⟩] = some fs1 ∧
      filestorage.fileStorage.Save filestorage.frameCodec fs1 none
        ⟨"1", "1", "http://demo.com", "slug1", "http://127.0.0.1/slug1", false⟩ =
        Run.done (none, ⟨fs1.file ++ b, fs1.rpos, false⟩) ∧
      filestorage.logOf filestorage.frameCodec
        [⟨"slug1", "1", "1", "http://127.0.0.1/slug1", "http://demo.com", false⟩,
         ⟨"slug1", "1", "1", "http://127.0.0.1/slug1", "http://demo.com", false⟩] =
        some (fs1.file ++ b) :=
  ⟨_, _, rfl,
   (fileStorage_Save_no_uniqueness filestorage.frameCodec _
      ⟨"1", "1", "http://demo.com", "slug1", "http://127.0.0.1/slug1", false⟩ _ rfl rfl).1,
   (fileStorage_Save_no_uniqueness filestorage.frameCodec _
      ⟨"1", "1", "http://demo.com", "slug1", "http://127.0.0.1/slug1", false⟩ _ rfl rfl).2.1
      [⟨"slug1", "1", "1", "http://127.0.0.1/slug1", "http://demo.com", false⟩] rfl⟩

/-- C24: `GetByURL` returns a nil error on both stores.  Memory store, in
whatever order `range` visits the map: the zero entity when no record has the
raw URL, otherwise a stored entity whose `Raw` is the URL.  File store, at rest
with a log of records `rs`: the zero entity when no record has the raw URL,
otherwise the earliest written record whose `Raw` is the URL, whoever its user
is. -/
theorem GetByURL_spec (c : filestorage.Codec) (hc : c.Lawful) (u : String) :
    (∀ (ms : memstorage.memStorage) (visit : List (String × memstorage.shortenedURL)),
      visit.Perm ms.data.entries →
      (memstorage.rangeByURL visit u).2 = none ∧
      ((∀ slug r, ms.data.get slug = some r → r.Raw ≠ u) →
        memstorage.rangeByURL visit u = (ShortenedURL.zero, none)) ∧
      ((∃ slug r, ms.data.get slug = some r ∧ r.Raw = u) →
        ∃ slug r, ms.data.get slug = some r ∧ r.Raw = u ∧
          memstorage.rangeByURL visit u = (r.ToModel slug, none))) ∧
    (∀ ms : memstorage.memStorage, ms.GetByURL u = memstorage.rangeByURL ms.data.entries u) ∧
    (∀ rs l, filestorage.logOf c rs = some l → (∀ r ∈ rs, r.Raw ≠ u) →
      filestorage.fileStorage.GetByURL c ⟨l, 0, false⟩ none u =
        Run.done ((ShortenedURL.zero, none), ⟨l, 0, false⟩)) ∧
    (∀ pre r post l, filestorage.logOf c (pre ++ r :: post) = some l →
      (∀ x ∈ pre, x.Raw ≠ u) → r.Raw = u →
      filestorage.fileStorage.GetByURL c ⟨l, 0, false⟩ none u =
        Run.done ((r.ToModel, none), ⟨l, 0, false⟩)) := by
  refine ⟨?_, fun _ => rfl, ?_, ?_⟩
  · intro ms visit hperm
    cases hf : visit.find? fun p => decide (p.2.Raw = u) with
    | none =>
      have hnone : ∀ slug r, ms.data.get slug = some r → r.Raw ≠ u := by
        intro slug r hget
        have hmem : (slug, r) ∈ visit :=
          hperm.mem_iff.2 ((GoMap.mem_entries_iff _ _ _).2 hget)
        have := List.find?_eq_none.1 hf (slug, r) hmem
        simpa using this
      refine ⟨?_, ?_, ?_⟩
      · simp only [memstorage.rangeByURL, hf]
      · intro _
        simp only [memstorage.rangeByURL, hf]
      · rintro ⟨slug, r, hget, hr⟩
        exact absurd hr (hnone slug r hget)
    | some p =>
      have hmem : p ∈ ms.data.entries := hperm.mem_iff.1 (List.mem_of_find?_eq_some hf)
      have hraw : p.2.Raw = u := by
        have := List.find?_some hf
        simpa using this
      have hget : ms.data.get p.1 = some p.2 := (GoMap.mem_entries_iff _ _ _).1 hmem
      refine ⟨?_, ?_, ?_⟩
      · simp only [memstorage.rangeByURL, hf]
      · intro hall
        exact absurd hraw (hall p.1 p.2 hget)
      · intro _
        refine ⟨p.1, p.2, hget, hraw, ?_⟩
        simp only [memstorage.rangeByURL, hf]
  · intro rs l hl hall
    obtain ⟨records, hrec, hlist⟩ := filestorage.List_logOf c hc rs l none hl
    have hf : (rs.find? fun r => decide (r.Raw = u)) = none := by
      rw [List.find?_eq_none]
      intro x hx
      simpa using hall x hx
    simp only [filestorage.fileStorage.GetByURL, Bool.false_eq_true, if_false, hlist, if_true,
      hrec, hf]
  · intro pre r post l hl hpre hr
    obtain ⟨records, hrec, hlist⟩ := filestorage.List_logOf c hc _ l none hl
    have hp : (pre.find? fun r => decide (r.Raw = u)) = none := by
      rw [List.find?_eq_none]
      intro x hx
      simpa using hpre x hx
    have hf : ((pre ++ r :: post).find? fun r => decide (r.Raw = u)) = some r := by
      rw [List.find?_append, hp, List.find?_cons]
      simp [hr]
    simp only [filestorage.fileStorage.GetByURL, Bool.false_eq_true, if_false, hlist, if_true,
      hrec, hf]

/-- Instance of C24: a log of two records of the same raw URL, of users 2 and
1 in that order; `GetByURL` returns the first written. -/
theorem GetByURL_spec_witness :
    ∃ l,
      filestorage.logOf filestorage.frameCodec
        [⟨"slug2", "2", "1", "http://127.0.0.1/slug2", "http://demo.com", false⟩,
         ⟨"slug1", "1", "1", "http://127.0.0.1/slug1", "http://demo.com", false⟩] = some l ∧
      filestorage.fileStorage.GetByURL filestorage.frameCodec ⟨l, 0, false⟩ none
        "http://demo.com" =
        Run.done ((⟨"2", "1", "http://demo.com", "slug2", "http://127.0.0.1/slug2", false⟩, none),
          ⟨l, 0, false⟩) :=
  ⟨_, rfl,
   (GetByURL_spec filestorage.frameCodec filestorage.frameCodec_lawful "http://demo.com").2.2.2
     [] ⟨"slug2", "2", "1", "http://127.0.0.1/slug2", "http://demo.com", false⟩
     [⟨"slug1", "1", "1", "http://127.0.0.1/slug1", "http://demo.com", false⟩] _ rfl
     (fun _ hx => absurd hx (List.not_mem_nil _)) rfl⟩

/-- C29: with a lawful codec `msgpReader.List` returns on every file content,
and the error it returns is the error of the rewind, whatever the decoding
loop met; when the seek succeeds the error is nil.  When the loop stops on an
error that is not the wrapped end of file, `List` returns a nil slice with a
nil error, and the store at that file answers as an empty one: `GetBySlug` and
`GetByURL` return the zero entity with a nil error, `CollectByUser` an empty
list, `Stat` zero URLs and zero users. -/
theorem List_hides_decode_failure (c : filestorage.Codec) (hc : c.Lawful)
    (file : List Nat) (pos : Nat) :
    (∀ seek, ∃ records pos1,
      filestorage.msgpReader.List c file pos seek = Run.done ((records, seek), pos1)) ∧
    (∃ records, filestorage.msgpReader.List c file pos none = Run.done ((records, none), 0)) ∧
    (∀ recs err rest, filestorage.decodeAll c file pos = Run.done ((recs, err), rest) →
      errorsUnwrap err ≠ some GoError.EOF →
      filestorage.msgpReader.List c file pos none = Run.done ((none, none), 0) ∧
      (∀ slug, filestorage.fileStorage.GetBySlug c ⟨file, pos, false⟩ none slug =
        Run.done ((ShortenedURL.zero, none), ⟨file, 0, false⟩)) ∧
      (∀ url, filestorage.fileStorage.GetByURL c ⟨file, pos, false⟩ none url =
        Run.done ((ShortenedURL.zero, none), ⟨file, 0, false⟩)) ∧
      (∀ userID, userID ≠ "" →
        filestorage.fileStorage.CollectByUser c ⟨file, pos, false⟩ none userID =
          Run.done ((some [], none), ⟨file, 0, false⟩)) ∧
      filestorage.fileStorage.Stat c ⟨file, pos, false⟩ none =
        Run.done (({ URLs := 0, Users := 0 }, none), ⟨file, 0, false⟩)) := by
  obtain ⟨records, err, rest, hd⟩ := filestorage.decodeAll_total c hc file pos
  refine ⟨?_, ?_, ?_⟩
  · intro seek
    exact ⟨_, _, filestorage.List_of_decodeAll c file pos seek records err rest hd⟩
  · have h := filestorage.List_of_decodeAll c file pos none records err rest hd
    rw [if_pos rfl] at h
    exact ⟨_, h⟩
  · intro recs err1 rest1 hd1 hne
    have h := filestorage.List_of_decodeAll c file pos none recs err1 rest1 hd1
    rw [if_pos rfl, if_pos hne] at h
    refine ⟨h, ?_, ?_, ?_, ?_⟩
    · intro slug
      simp only [filestorage.fileStorage.GetBySlug, Bool.false_eq_true, if_false, h]
      rfl
    · intro url
      simp only [filestorage.fileStorage.GetByURL, Bool.false_eq_true, if_false, h]
      rfl
    · intro userID hu
      have hlen : ¬ userID.length = 0 := fun h0 => hu ((String_length_eq_zero userID).1 h0)
      simp only [filestorage.fileStorage.CollectByUser, hlen, Bool.false_eq_true, if_false, h]
      rfl
    · simp only [filestorage.fileStorage.Stat, Bool.false_eq_true, if_false, h]
      rfl

/-- Instance of C29: a file that holds one well-formed record followed by the
start of a record cut short.  The loop decodes the first record and stops on
an error that is not the end of file; `List` returns nil and nil and
`GetBySlug` does not find the record that is in the file. -/
theorem List_hides_decode_failure_witness :
    filestorage.decodeAll filestorage.frameCodec
        ((filestorage.frameCodec.MarshalMsg
          ⟨"slug1", "1", "1", "http://127.0.0.1/slug1", "http://demo.com", false⟩).1 ++ [9, 5]) 0 =
      Run.done ((some [⟨"slug1", "1", "1", "http://127.0.0.1/slug1", "http://demo.com", false⟩],
        GoError.adhoc "msgp: short record"), []) ∧
    filestorage.msgpReader.List filestorage.frameCodec
        ((filestorage.frameCodec.MarshalMsg
          ⟨"slug1", "1", "1", "http://127.0.0.1/slug1", "http://demo.com", false⟩).1 ++ [9, 5]) 0 none =
      Run.done ((none, none), 0) ∧
    filestorage.fileStorage.GetBySlug filestorage.frameCodec
        ⟨((filestorage.frameCodec.MarshalMsg
          ⟨"slug1", "1", "1", "http://127.0.0.1/slug1", "http://demo.com", false⟩).1 ++ [9, 5]), 0, false⟩ none "slug1" =
      Run.done ((ShortenedURL.zero, none),
        ⟨((filestorage.frameCodec.MarshalMsg
          ⟨"slug1", "1", "1", "http://127.0.0.1/slug1", "http://demo.com", false⟩).1 ++ [9, 5]), 0, false⟩) :=
  ⟨rfl,
   ((List_hides_decode_failure filestorage.frameCodec filestorage.frameCodec_lawful
      ((filestorage.frameCodec.MarshalMsg
          ⟨"slug1", "1", "1", "http://127.0.0.1/slug1", "http://demo.com", false⟩).1 ++ [9, 5]) 0).2.2
      (some [⟨"slug1", "1", "1", "http://127.0.0.1/slug1", "http://demo.com", false⟩])
      (GoError.adhoc "msgp: short record") [] (by rfl) (by decide)).1,
   ((List_hides_decode_failure filestorage.frameCodec filestorage.frameCodec_lawful
      ((filestorage.frameCodec.MarshalMsg
          ⟨"slug1", "1", "1", "http://127.0.0.1/slug1", "http://demo.com", false⟩).1 ++ [9, 5]) 0).2.2
      (some [⟨"slug1", "1", "1", "http://127.0.0.1/slug1", "http://demo.com", false⟩])
      (GoError.adhoc "msgp: short record") [] (by rfl) (by decide)).2.1 "slug1"⟩

/-- C22, evaluated: `memStorage.Batch` writes every record of the batch under
its slug without the scan `Save` makes, so a batch of two records with the same
`Raw` and `UserID` under two slugs, given to the empty store, returns nil and
leaves both stored.  The empty store has no such pair, and `Save` and `Delete`
never make one. -/
theorem memStorage_Batch_duplicate_pairs :
    (memstorage.MemStorage.Batch
      (some [⟨"1", "1", "http://demo.com", "slug1", "http://127.0.0.1/slug1", false⟩,
             ⟨"1", "2", "http://demo.com", "slug2", "http://127.0.0.1/slug2", false⟩])).1 =
      none ∧
    (memstorage.MemStorage.run [memstorage.Op.Batch
      (some [⟨"1", "1", "http://demo.com", "slug1", "http://127.0.0.1/slug1", false⟩,
             ⟨"1", "2", "http://demo.com", "slug2", "http://127.0.0.1/slug2", false⟩])]).data.get
      "slug1" = some ⟨"1", "1", "http://demo.com", "http://127.0.0.1/slug1", false⟩ ∧
    (memstorage.MemStorage.run [memstorage.Op.Batch
      (some [⟨"1", "1", "http://demo.com", "slug1", "http://127.0.0.1/slug1", false⟩,
             ⟨"1", "2", "http://demo.com", "slug2", "http://127.0.0.1/slug2", false⟩])]).data.get
      "slug2" = some ⟨"1", "2", "http://demo.com", "http://127.0.0.1/slug2", false⟩ ∧
    memstorage.MemStorage.UniquePairs ∧
    (∀ (ms : memstorage.memStorage) (e : ShortenedURL),
      ms.UniquePairs → (ms.Save e).2.UniquePairs) ∧
    (∀ (ms : memstorage.memStorage) (userID : String) (sched : List String),
      ms.UniquePairs → (ms.Delete userID sched).2.UniquePairs) := by
  refine ⟨rfl, by decide, by decide, ?_, memstorage.Save_UniquePairs,
    memstorage.Delete_UniquePairs⟩
  intro s1 s2 r1 r2 h1
  cases h1

/-- C23 as stated fails: the store holds slug1 for user 1, marked deleted; a
`Save` of another entity under slug1 returns nil, and `GetBySlug` of slug1 then
returns the new entity, not deleted, in place of the old one. -/
theorem memStorage_Save_overwrites_counterexample :
    (memstorage.MemStorage.run
      [memstorage.Op.Save ⟨"1", "1", "http://demo.com", "slug1", "http://127.0.0.1/slug1", false⟩,
       memstorage.Op.Delete "1" (some ["slug1"]) ["slug1"]]).GetBySlug "slug1" =
      (⟨"1", "1", "http://demo.com", "slug1", "http://127.0.0.1/slug1", true⟩, none) ∧
    ((memstorage.MemStorage.run
      [memstorage.Op.Save ⟨"1", "1", "http://demo.com", "slug1", "http://127.0.0.1/slug1", false⟩,
       memstorage.Op.Delete "1" (some ["slug1"]) ["slug1"]]).Save
      ⟨"2", "1", "http://other.com", "slug1", "http://127.0.0.1/slug1", false⟩).1 = none ∧
    ((memstorage.MemStorage.run
      [memstorage.Op.Save ⟨"1", "1", "http://demo.com", "slug1", "http://127.0.0.1/slug1", false⟩,
       memstorage.Op.Delete "1" (some ["slug1"]) ["slug1"]]).Save
      ⟨"2", "1", "http://other.com", "slug1", "http://127.0.0.1/slug1", false⟩).2.GetBySlug
      "slug1" =
      (⟨"2", "1", "http://other.com", "slug1", "http://127.0.0.1/slug1", false⟩, none) := by
  refine ⟨by decide, by decide, by decide⟩

/-- C23, amended: a slug stored in the memory store stays stored through every
sequence of `Save`, `Batch` and `Delete` calls; a `Save` of an entity with
another slug, and a `Batch` none of whose entities has the slug, leave
`GetBySlug` of the slug unchanged; a `Delete` changes at most `IsDeleted` of
the record, and leaves it true when it was true. -/
theorem memStorage_records_kept (ms : memstorage.memStorage) (slug : String)
    (r : memstorage.shortenedURL) (h : ms.data.get slug = some r) :
    ms.GetBySlug slug = (r.ToModel slug, none) ∧
    (∀ ops : List memstorage.Op, ∃ r1, (ms.run ops).data.get slug = some r1) ∧
    (∀ e : ShortenedURL, e.Slug ≠ slug →
      (ms.Save e).2.GetBySlug slug = (r.ToModel slug, none)) ∧
    (∀ es : Slice ShortenedURL, (∀ e ∈ es.elems, e.Slug ≠ slug) →
      (ms.Batch es).2.GetBySlug slug = (r.ToModel slug, none)) ∧
    (∀ (userID : String) (sched : List String), ∃ d,
      (ms.Delete userID sched).2.data.get slug = some { r with IsDeleted := d } ∧
      (r.IsDeleted = true → d = true)) := by
  have hget : ms.GetBySlug slug = (r.ToModel slug, none) := by
    simp only [memstorage.memStorage.GetBySlug, h]
  refine ⟨hget, fun ops => memstorage.run_get_some ops ms slug r h, ?_, ?_, ?_⟩
  · intro e hne
    cases hany : (ms.data.entries.any fun p =>
        decide (p.2.Raw = e.Raw) && decide (p.2.UserID = e.UserID)) with
    | true =>
      rw [memstorage.Save_of_present ms e hany]
      exact hget
    | false =>
      rw [memstorage.Save_of_fresh ms e hany]
      have hg : (ms.data.set e.Slug (memstorage.newShortenedURL e)).get slug = some r := by
        rw [GoMap.get_set_ne _ _ _ _ (fun heq => hne heq.symm)]
        exact h
      simp only [memstorage.memStorage.GetBySlug, hg]
  · intro es hall
    have hg := memstorage.Batch_get_ne es.elems ms slug hall
    rw [h] at hg
    simp only [memstorage.memStorage.GetBySlug, memstorage.memStorage.Batch, hg]
  · intro userID sched
    refine ⟨r.IsDeleted || (decide (slug ∈ sched) && decide (r.UserID = userID)), ?_, ?_⟩
    · change (sched.foldl (fun m slug => m.deleteSlug userID slug) ms).data.get slug = _
      rw [memstorage.Delete_get, h]
      rfl
    · intro hd
      rw [hd]
      rfl

/-- Instance of amended C23: the store holds slug1; a `Save` under slug2 leaves
`GetBySlug` of slug1 as it was. -/
theorem memStorage_records_kept_witness :
    ((memstorage.MemStorage.run
      [memstorage.Op.Save ⟨"1", "1", "http://demo.com", "slug1", "http://127.0.0.1/slug1",
        false⟩]).Save
      ⟨"2", "1", "http://other.com", "slug2", "http://127.0.0.1/slug2", false⟩).2.GetBySlug
      "slug1" =
      (⟨"1", "1", "http://demo.com", "slug1", "http://127.0.0.1/slug1", false⟩, none) :=
  (memStorage_records_kept
    (memstorage.MemStorage.run
      [memstorage.Op.Save ⟨"1", "1", "http://demo.com", "slug1", "http://127.0.0.1/slug1",
        false⟩])
    "slug1" ⟨"1", "1", "http://demo.com", "http://127.0.0.1/slug1", false⟩ (by decide)).2.2.1
    ⟨"2", "1", "http://other.com", "slug2", "http://127.0.0.1/slug2", false⟩ (by decide)

end Shortener
